import Mathlib

/-!
# Verification of pyPDFA.py (MySmartPlansKC/pyPDFA, v1.5.0)

A shallow embedding of the batch PDF → PDF/A conversion pipeline of
`pyPDFA.py`, together with theorems settling the frozen claims about it.

Modelling conventions:

* A filesystem path is a list of name components (`FPath`).
* The filesystem (`FS`) is a finite association of file paths to file
  contents plus a list of existing directories.  File contents are modelled
  by `PdfDoc`: a list of pages (each a dictionary of entries), an XMP
  metadata dictionary, and a byte size (`st_size`).
* The external Ghostscript process is a black box; one run of it is modelled
  by a `GsOutcome` oracle value saying how the process ended (normal exit
  with an exit code, timeout, or an exception raised inside the `try` block)
  and what content, if any, it wrote to the output file.
* Python exceptions escaping a function are modelled with `Except PyError`.
  Exceptions that the source catches and logs (e.g. inside `safe_remove`,
  `remove_annotations_and_comments`, `set_pdfa_metadata`,
  `move_to_error_directory`) are modelled by the corresponding filesystem
  operation succeeding or, where the source's `except` swallows a failure,
  by leaving the state unchanged.
* Logging calls, `get_pdf_page_count` (used only for a log line) and the
  `document_index`/`total_documents` parameters of `convert_to_pdfa` (used
  only for log lines) have no observable effect; `batch_convert`'s loop
  records the `(source, document_index, total_documents)` triple of each
  `convert_to_pdfa` call in a call log instead.
-/

/-- A filesystem path: list of path components. -/
abbrev FPath := List String

/-- Boolean path-prefix test (the `relative_to` subpath relation). -/
def pfx : FPath → FPath → Bool
  | [], _ => true
  | _ :: _, [] => false
  | a :: as, b :: bs => decide (a = b) && pfx as bs

theorem pfx_append (a t : FPath) : pfx a (a ++ t) = true := by
  induction a with
  | nil => rfl
  | cons x xs ih => simp [pfx, ih]

theorem pfx_iff_append (a b : FPath) : pfx a b = true ↔ ∃ t, b = a ++ t := by
  constructor
  · intro h
    induction a generalizing b with
    | nil => exact ⟨b, rfl⟩
    | cons x xs ih =>
      cases b with
      | nil => simp [pfx] at h
      | cons y ys =>
        simp only [pfx, Bool.and_eq_true, decide_eq_true_eq] at h
        obtain ⟨t, ht⟩ := ih ys h.2
        exact ⟨t, by simp [h.1, ht]⟩
  · rintro ⟨t, rfl⟩
    exact pfx_append a t

theorem pfx_comparable (a b c : FPath) (ha : pfx a c = true) (hb : pfx b c = true) :
    pfx a b = true ∨ pfx b a = true := by
  induction a generalizing b c with
  | nil => exact Or.inl rfl
  | cons x xs ih =>
    cases c with
    | nil => simp [pfx] at ha
    | cons z zs =>
      cases b with
      | nil => exact Or.inr rfl
      | cons y ys =>
        simp only [pfx, Bool.and_eq_true, decide_eq_true_eq] at ha hb ⊢
        rcases ih ys zs ha.2 hb.2 with h | h
        · exact Or.inl ⟨ha.1.trans hb.1.symm, h⟩
        · exact Or.inr ⟨hb.1.trans ha.1.symm, h⟩

/-- If two trees are not nested, a path in the first tree is never a path in
the second tree. -/
theorem ne_of_separate_trees (a b f : FPath) (r : FPath)
    (h1 : pfx a b = false) (h2 : pfx b a = false) (hf : pfx a f = true) :
    f ≠ b ++ r := by
  intro he
  have hb : pfx b f = true := he ▸ pfx_append b r
  rcases pfx_comparable a b f hf hb with h | h
  · rw [h1] at h; exact Bool.false_ne_true h
  · rw [h2] at h; exact Bool.false_ne_true h

theorem append_drop_of_pfx (a b : FPath) (h : pfx a b = true) :
    a ++ b.drop a.length = b := by
  obtain ⟨t, rfl⟩ := (pfx_iff_append a b).1 h
  simp

/-- Association-list lookup (used for the filesystem's file table, page
dictionaries and XMP metadata dictionaries). -/
def assocLookup {α β : Type} [DecidableEq α] : List (α × β) → α → Option β
  | [], _ => none
  | (k, v) :: rest, a => if k = a then some v else assocLookup rest a

theorem assocLookup_cons {α β : Type} [DecidableEq α] (k : α) (v : β) (t : List (α × β)) (a : α) :
    assocLookup ((k, v) :: t) a = if k = a then some v else assocLookup t a := rfl

/-- Remove every binding of a key from an association list. -/
def eraseKey {α β : Type} [DecidableEq α] : List (α × β) → α → List (α × β)
  | [], _ => []
  | (k, v) :: t, a => if k = a then eraseKey t a else (k, v) :: eraseKey t a

theorem assocLookup_eraseKey {α β : Type} [DecidableEq α] (l : List (α × β)) (k0 a : α) :
    assocLookup (eraseKey l k0) a = if a = k0 then none else assocLookup l a := by
  induction l with
  | nil => by_cases h : a = k0 <;> simp [eraseKey, assocLookup, h]
  | cons e t ih =>
    obtain ⟨k, v⟩ := e
    by_cases hk : k = k0
    · rw [eraseKey, if_pos hk, ih]
      by_cases ha : a = k0
      · simp [ha]
      · rw [if_neg ha, if_neg ha, assocLookup_cons, if_neg (fun h => ha (h.symm.trans hk))]
    · rw [eraseKey, if_neg hk, assocLookup_cons]
      by_cases hka : k = a
      · rw [if_pos hka, if_neg (fun h => hk (hka.trans h)), assocLookup_cons, if_pos hka]
      · rw [if_neg hka, ih, assocLookup_cons]
        by_cases ha : a = k0
        · simp [ha]
        · rw [if_neg ha, if_neg ha, if_neg hka]

/-- One entry of a PDF page dictionary: key (e.g. `/Annots`) and value. -/
structure PdfPage where
  entries : List (String × String)
  deriving DecidableEq, Repr

/-- A PDF file as the model sees it: pages, XMP metadata dictionary, and
`st_size` in bytes. -/
structure PdfDoc where
  pages : List PdfPage
  meta : List (String × String)
  size : Nat
  deriving DecidableEq, Repr

/-- The filesystem: file table (path → content) and set of directories. -/
structure FS where
  files : List (FPath × PdfDoc)
  dirs : List FPath
  deriving DecidableEq, Repr

def FS.lookup (fs : FS) (p : FPath) : Option PdfDoc :=
  assocLookup fs.files p

/-- `Path.unlink` / `safe_remove`: remove a file (no-op when absent; the
source catches and logs removal errors). -/
def FS.removeFile (fs : FS) (p : FPath) : FS :=
  { fs with files := eraseKey fs.files p }

/-- Write (create or overwrite) a file. -/
def FS.writeFile (fs : FS) (p : FPath) (d : PdfDoc) : FS :=
  { fs with files := (p, d) :: eraseKey fs.files p }

/-- Open a file, transform its content, save it in place (`pikepdf.open …
save`); when the file is absent, opening raises and the callers of this
pattern catch the exception, so the state is unchanged. -/
def FS.updateFile (fs : FS) (p : FPath) (g : PdfDoc → PdfDoc) : FS :=
  match fs.lookup p with
  | some d => fs.writeFile p (g d)
  | none => fs

theorem FS.lookup_removeFile (fs : FS) (p q : FPath) :
    (fs.removeFile p).lookup q = if q = p then none else fs.lookup q := by
  simp [FS.lookup, FS.removeFile, assocLookup_eraseKey]

theorem FS.lookup_writeFile (fs : FS) (p q : FPath) (d : PdfDoc) :
    (fs.writeFile p d).lookup q = if q = p then some d else fs.lookup q := by
  have h1 : (fs.writeFile p d).lookup q
      = if p = q then some d else assocLookup (eraseKey fs.files p) q := rfl
  rw [h1, assocLookup_eraseKey]
  by_cases h : q = p
  · simp [h]
  · rw [if_neg (fun hpq => h hpq.symm), if_neg h, if_neg h]
    rfl

theorem FS.lookup_updateFile (fs : FS) (p q : FPath) (g : PdfDoc → PdfDoc) :
    (fs.updateFile p g).lookup q =
      if q = p then (fs.lookup p).map g else fs.lookup q := by
  unfold FS.updateFile
  cases hp : fs.lookup p with
  | none => by_cases h : q = p <;> simp [h, hp]
  | some d => by_cases h : q = p <;> simp [FS.lookup_writeFile, h, hp]

theorem FS.dirs_removeFile (fs : FS) (p : FPath) : (fs.removeFile p).dirs = fs.dirs := rfl

theorem FS.dirs_writeFile (fs : FS) (p : FPath) (d : PdfDoc) :
    (fs.writeFile p d).dirs = fs.dirs := rfl

theorem FS.dirs_updateFile (fs : FS) (p : FPath) (g : PdfDoc → PdfDoc) :
    (fs.updateFile p g).dirs = fs.dirs := by
  unfold FS.updateFile
  cases fs.lookup p <;> rfl

/-! ## `get_timeout` (pyPDFA.py lines 143–153)

`file_size_kb` is a Python float (`st_size / 1024`); it is modelled as a
rational number. -/

def get_timeout (file_size_kb : ℚ) : ℕ :=
  if file_size_kb < 150000 then 480
  else if file_size_kb < 300000 then 900
  else if file_size_kb < 600000 then 2400
  else if file_size_kb < 900000 then 3600
  else 5400

/-- C6: `get_timeout` is monotone non-decreasing, always returns one of
480, 900, 2400, 3600, 5400 seconds, and hence every timeout lies between
480 and 5400 seconds. -/
theorem C6_get_timeout_monotone_and_range :
    (∀ a b : ℚ, a ≤ b → get_timeout a ≤ get_timeout b) ∧
    (∀ s : ℚ, get_timeout s = 480 ∨ get_timeout s = 900 ∨ get_timeout s = 2400 ∨
        get_timeout s = 3600 ∨ get_timeout s = 5400) ∧
    (∀ s : ℚ, 480 ≤ get_timeout s ∧ get_timeout s ≤ 5400) := by
  refine ⟨?_, ?_, ?_⟩
  · intro a b hab
    unfold get_timeout
    split_ifs with h1 h2 h3 h4 h5 h6 h7 h8 h9 h10 h11 h12 h13 h14 <;>
      first
        | omega
        | (exfalso; linarith)
  · intro s
    unfold get_timeout
    split_ifs <;> simp
  · intro s
    unfold get_timeout
    split_ifs <;> omega

/-- Witness for C6 at a concrete pair of sizes. -/
theorem C6_get_timeout_monotone_and_range_witness :
    (1000 : ℚ) ≤ 200000 ∧ get_timeout 1000 ≤ get_timeout 200000 :=
  ⟨by norm_num, C6_get_timeout_monotone_and_range.1 1000 200000 (by norm_num)⟩

/-! ## Path helpers (`pathlib.Path` operations) -/

/-- `Path.parent`. -/
def parentDir (p : FPath) : FPath := p.dropLast

/-- `Path.name` (the final component; `""` for an empty path). -/
def baseName (p : FPath) : String := p.getLast?.getD ""

/-- `Path.relative_to`: `some` of the relative part when `base` is a
subpath anchor of `p`, `none` when Python would raise `ValueError`. -/
def relativeTo (p base : FPath) : Option FPath :=
  if pfx base p then some (p.drop base.length) else none

/-- The proper prefixes of a path: the directories that
`parent.mkdir(parents=True, exist_ok=True)` ensures exist. -/
def properPrefixes (p : FPath) : List FPath :=
  (List.range p.length).map (fun n => p.take n)

/-- `mkdir(exist_ok=True)` for a single directory. -/
def addDir (fs : FS) (d : FPath) : FS :=
  if d ∈ fs.dirs then fs else { fs with dirs := d :: fs.dirs }

/-- `path.mkdir(parents=True, exist_ok=True)` applied to the parent chain
of `p` (all proper prefixes of `p`). -/
def mkdirParents (fs : FS) (p : FPath) : FS :=
  (properPrefixes p).foldl addDir fs

theorem files_foldl_addDir (l : List FPath) (fs : FS) :
    (l.foldl addDir fs).files = fs.files := by
  induction l generalizing fs with
  | nil => rfl
  | cons d t ih =>
    rw [List.foldl_cons, ih]
    unfold addDir
    split <;> rfl

theorem FS.lookup_mkdirParents (fs : FS) (p q : FPath) :
    (mkdirParents fs p).lookup q = fs.lookup q := by
  rw [FS.lookup, FS.lookup, mkdirParents, files_foldl_addDir]

theorem mem_dirs_addDir (fs : FS) (d e : FPath) (h : e ∈ fs.dirs) :
    e ∈ (addDir fs d).dirs := by
  unfold addDir
  split
  · exact h
  · exact List.mem_cons_of_mem d h

theorem mem_dirs_addDir_self (fs : FS) (d : FPath) : d ∈ (addDir fs d).dirs := by
  unfold addDir
  split
  · assumption
  · exact List.mem_cons_self d fs.dirs

theorem mem_dirs_foldl_addDir (l : List FPath) (fs : FS) (e : FPath) (h : e ∈ fs.dirs) :
    e ∈ (l.foldl addDir fs).dirs := by
  induction l generalizing fs with
  | nil => exact h
  | cons d t ih => exact ih (addDir fs d) (mem_dirs_addDir fs d e h)

theorem mem_dirs_foldl_addDir_of_mem (l : List FPath) (fs : FS) (e : FPath) (h : e ∈ l) :
    e ∈ (l.foldl addDir fs).dirs := by
  induction l generalizing fs with
  | nil => cases h
  | cons d t ih =>
    rcases List.mem_cons.1 h with rfl | h
    · exact mem_dirs_foldl_addDir t (addDir fs e) e (mem_dirs_addDir_self fs e)
    · exact ih (addDir fs d) h

/-! ## Annotation stripping (`remove_annotations_and_comments`,
pyPDFA.py lines 131–141): for every page of the document, when the page
dictionary has an `/Annots` key, delete it; then save in place. -/

/-- `if '/Annots' in page: del page['/Annots']` for one page. -/
def stripPage (pg : PdfPage) : PdfPage :=
  { pg with entries := eraseKey pg.entries "/Annots" }

/-- The page loop of `remove_annotations_and_comments` on a whole document. -/
def stripAnnots (d : PdfDoc) : PdfDoc :=
  { d with pages := d.pages.map stripPage }

/-- `remove_annotations_and_comments(pdf_path)`: open the file, strip the
`/Annots` entry of every page, save in place.  Failures (e.g. the file does
not exist) are caught and only logged, leaving the filesystem unchanged. -/
def remove_annotations_and_comments (fs : FS) (pdf_path : FPath) : FS :=
  fs.updateFile pdf_path stripAnnots

/-! ## Metadata stamping (`set_pdfa_metadata` / `_unset_empty_metadata`,
pyPDFA.py lines 156–181).  XMP metadata is a dictionary of string keys to
string values; Python's falsiness test `not meta[field]` is the empty
string test. -/

def pyPDFA_version : String := "1.5.0"

/-- `meta[k] = v`. -/
def metaSet (m : List (String × String)) (k v : String) : List (String × String) :=
  (k, v) :: eraseKey m k

/-- `del meta[k]`. -/
def metaDel (m : List (String × String)) (k : String) : List (String × String) :=
  eraseKey m k

/-- `meta[k]` as an optional value (`none` when `k not in meta`). -/
def metaGet (m : List (String × String)) (k : String) : Option String :=
  assocLookup m k

/-- The fields scrubbed by `_unset_empty_metadata`. -/
def emptyMetaFields : List String :=
  ["dc:title", "dc:creator", "pdf:Author", "dc:description", "dc:subject", "pdf:Keywords"]

/-- `_unset_empty_metadata`: delete each listed field that is present but
holds a falsy (empty-string) value. -/
def unset_empty_metadata (m : List (String × String)) : List (String × String) :=
  emptyMetaFields.foldl
    (fun acc f =>
      match metaGet acc f with
      | some v => if v = "" then metaDel acc f else acc
      | none => acc)
    m

/-- The metadata transformation performed by `set_pdfa_metadata` on a
document's XMP dictionary: set the four PDF/A fields, drop a literal
`Untitled` title, then scrub empty fields. -/
def set_pdfa_metadata_meta (m : List (String × String)) : List (String × String) :=
  let m1 := metaSet m "xmp:CreatorTool" ("pyPDFA v" ++ pyPDFA_version)
  let m2 := metaSet m1 "pdf:Producer" "MySmartPlans.com"
  let m3 := metaSet m2 "pdfaid:Conformance" "B"
  let m4 := metaSet m3 "pdfaid:Part" "1"
  let m5 := if metaGet m4 "dc:title" = some "Untitled" then metaDel m4 "dc:title" else m4
  unset_empty_metadata m5

/-- `set_pdfa_metadata(pdf_path)`: open the file, rewrite its XMP metadata,
save.  Failures (e.g. the file does not exist) are caught and only logged,
leaving the filesystem unchanged. -/
def set_pdfa_metadata (fs : FS) (pdf_path : FPath) : FS :=
  fs.updateFile pdf_path (fun d => { d with meta := set_pdfa_metadata_meta d.meta })

/-! ## `move_to_error_directory` (pyPDFA.py lines 316–329)

In source order: delete any output file, compute the source's path relative
to the input directory, create the destination's parent directories under
the error directory, and move the source file there.  Each step that raises
(`relative_to` on a non-subpath, `shutil.move` on a missing source) aborts
the rest of the body; the exception is caught and only logged. -/

def move_to_error_directory (fs : FS) (source_path error_dir input_dir output_path : FPath) : FS :=
  let fs1 := fs.removeFile output_path
  match relativeTo source_path input_dir with
  | none => fs1
  | some rel =>
    let destination_path := error_dir ++ rel
    let fs2 := mkdirParents fs1 destination_path
    match fs2.lookup source_path with
    | none => fs2
    | some c => (fs2.removeFile source_path).writeFile destination_path c

/-! ## Directory cleanup (`remove_empty_directories` lines 349–359,
`clear_input_directory` lines 81–94) -/

/-- `any(path.iterdir())`: `p` has an immediate child file or directory. -/
def hasChild (fs : FS) (p : FPath) : Bool :=
  fs.files.any (fun e => decide (parentDir e.1 = p)) ||
    fs.dirs.any (fun d => decide (parentDir d = p ∧ d ≠ p))

/-- Unchecked removal of a directory entry. -/
def rmdirRaw (fs : FS) (p : FPath) : FS :=
  { fs with dirs := fs.dirs.filter (fun d => decide (d ≠ p)) }

/-- `Path.rmdir()` with its `OSError` caught: succeeds only on an existing,
empty directory, otherwise leaves the filesystem unchanged. -/
def tryRmdir (fs : FS) (p : FPath) : FS :=
  if p ∈ fs.dirs ∧ hasChild fs p = false then rmdirRaw fs p else fs

/-- `remove_empty_directories(path, root_dir)`: while the directory is
empty and not named `PDFA_IN`, remove it and recurse to its parent, stopping
at `root_dir`.  (The extra `p ≠ []` guard on the recursion models the
filesystem root, whose parent is itself.) -/
def remove_empty_directories (fs : FS) (p root_dir : FPath) : FS :=
  if p ∈ fs.dirs ∧ hasChild fs p = false then
    if baseName p = "PDFA_IN" then fs
    else
      let fs' := rmdirRaw fs p
      if parentDir p ≠ root_dir ∧ p ≠ [] then
        remove_empty_directories fs' (parentDir p) root_dir
      else fs'
  else fs
termination_by p.length
decreasing_by
  rename_i h2
  have hp : p ≠ [] := h2.2
  have : p.length - 1 < p.length := by
    cases p with
    | nil => exact absurd rfl hp
    | cons x xs => simp
  simpa [parentDir, List.length_dropLast] using this

/-- Substring test, for Python's `"PDFA_IN" not in dir_path.name`. -/
def subOccurs (needle : List Char) : List Char → Bool
  | [] => needle.isEmpty
  | c :: rest => needle.isPrefixOf (c :: rest) || subOccurs needle rest

def strContains (hay needle : String) : Bool :=
  subOccurs needle.data hay.data

/-- `clear_input_directory(directory)`: `os.walk(directory, topdown=False)`
deletes every file under the directory, then attempts `rmdir` on every
subdirectory, deepest first, skipping any whose name contains `PDFA_IN`.
(The walk root itself is not in its own `dirs` lists, so it is never
removed.)  The bottom-up visit order is modelled by sorting the
subdirectories by decreasing depth. -/
def deeperFirst (l : List FPath) : List FPath :=
  (List.range (l.foldl (fun m p => max m p.length) 0 + 1)).reverse.flatMap
    (fun n => l.filter (fun p => decide (p.length = n)))

def clear_input_directory (fs : FS) (directory : FPath) : FS :=
  let fs1 : FS :=
    { fs with files := fs.files.filter (fun e => !(pfx directory e.1 && decide (e.1 ≠ directory))) }
  let subdirs := fs.dirs.filter (fun d => pfx directory d && decide (d ≠ directory))
  (deeperFirst subdirs).foldl
    (fun acc d => if strContains (baseName d) "PDFA_IN" then acc else tryRmdir acc d)
    fs1

/-! ## The Ghostscript run oracle -/

/-- Observable behavior of one run of the external Ghostscript process
inside `convert_to_pdfa`'s `try` block: how the run ended, and the content
(if any) it left at the output path. -/
inductive GsOutcome where
  /-- `process.communicate` returned; `process.returncode = code`. -/
  | completed (code : Int) (written : Option PdfDoc)
  /-- `subprocess.TimeoutExpired` was raised. -/
  | timedOut (written : Option PdfDoc)
  /-- `subprocess.CalledProcessError` was raised. -/
  | calledProcessError (written : Option PdfDoc)
  /-- Any other `Exception` was raised inside the `try` block. -/
  | otherError (written : Option PdfDoc)
  deriving DecidableEq, Repr

/-- The content the process left at the output path, if any. -/
def GsOutcome.written : GsOutcome → Option PdfDoc
  | .completed _ w => w
  | .timedOut w => w
  | .calledProcessError w => w
  | .otherError w => w

/-- A Python exception escaping a function. -/
structure PyError where
  msg : String
  deriving DecidableEq, Repr

/-! ## `convert_to_pdfa` (pyPDFA.py lines 183–313)

Faithful to the source's order: `get_pdf_page_count` (log only), then
`source_path.stat()` — outside the `try` block, so a missing source file
raises `FileNotFoundError` out of the function — then `get_timeout` (it
only parameterizes the external process, whose behavior the `GsOutcome`
oracle already fixes), then inside `try`: strip annotations from the
*source* file, run Ghostscript, and classify:

* exit code 0 → stamp metadata on the output file, return `True`;
* non-zero exit code but the output file exists → stamp metadata, log a
  warning, return `True`;
* non-zero exit code and no output file → move the source to the error
  tree, return `False`;
* `TimeoutExpired` → delete any output file, move the source to the error
  tree, return `False`;
* `CalledProcessError` or any other `Exception` → move the source to the
  error tree, return `False`. -/

def convert_to_pdfa (gs : GsOutcome) (fs : FS)
    (source_path output_path error_dir input_dir : FPath) :
    Except PyError (Bool × FS) :=
  match fs.lookup source_path with
  | none => .error ⟨"FileNotFoundError: stat"⟩
  | some _src =>
    let fs1 := remove_annotations_and_comments fs source_path
    let fs2 := match gs.written with
      | some d => fs1.writeFile output_path d
      | none => fs1
    match gs with
    | .completed code _ =>
      if code = 0 then
        .ok (true, set_pdfa_metadata fs2 output_path)
      else if (fs2.lookup output_path).isSome then
        .ok (true, set_pdfa_metadata fs2 output_path)
      else
        .ok (false, move_to_error_directory fs2 source_path error_dir input_dir output_path)
    | .timedOut _ =>
      let fs3 := fs2.removeFile output_path
      .ok (false, move_to_error_directory fs3 source_path error_dir input_dir output_path)
    | .calledProcessError _ =>
      .ok (false, move_to_error_directory fs2 source_path error_dir input_dir output_path)
    | .otherError _ =>
      .ok (false, move_to_error_directory fs2 source_path error_dir input_dir output_path)

/-- The return value of a `convert_to_pdfa` call, `none` when an exception
escaped. -/
def convResult (e : Except PyError (Bool × FS)) : Option Bool :=
  match e with
  | .ok (b, _) => some b
  | .error _ => none

/-- The filesystem after a `convert_to_pdfa` call, `none` when an exception
escaped. -/
def convFS (e : Except PyError (Bool × FS)) : Option FS :=
  match e with
  | .ok (_, fs) => some fs
  | .error _ => none

/-- Whether an `Except`-valued computation returned normally. -/
def exceptOk (e : Except PyError (Bool × FS)) : Bool :=
  match e with
  | .ok _ => true
  | .error _ => false

/-! ## `batch_convert` (pyPDFA.py lines 362–401)

The loop over `input_dir.rglob('*.pdf')` is modelled as a fold over the
list of matching source files, snapshot at entry (the loop itself only
deletes or moves files out of the input tree, and only those already
visited, so the lazy generator and the snapshot enumerate the same files).
The interactive `check_and_clear_directory` confirmations on the output and
error directories and the empty-input early return precede the pipeline and
are not modelled; `total_documents = sum(1 for _ in input_dir.rglob('*.pdf'))`
is the length of that same snapshot.  The accumulator also records each
`convert_to_pdfa` call's `(source, document_index, total_documents)`
arguments and each call's boolean result. -/

structure BatchAcc where
  fs : FS
  document_index : Nat
  has_errors : Bool
  calls : List (FPath × Nat × Nat)
  results : List (FPath × Bool)
  deriving DecidableEq, Repr

def batch_loop (input_dir output_dir error_dir : FPath) (total_documents : Nat)
    (gs : FPath → GsOutcome) (acc : BatchAcc) :
    List FPath → Except PyError BatchAcc
  | [] => .ok acc
  | source_file :: rest =>
    let document_index := acc.document_index + 1
    match relativeTo source_file input_dir with
    | none => .error ⟨"ValueError: relative_to"⟩
    | some rel =>
      let output_file := output_dir ++ rel
      let fsm := mkdirParents acc.fs output_file
      match convert_to_pdfa (gs source_file) fsm source_file output_file error_dir input_dir with
      | .error e => .error e
      | .ok (success, fs2) =>
        let fs3 := if success then fs2.removeFile source_file else fs2
        let fs4 := remove_empty_directories fs3 (parentDir source_file) input_dir
        batch_loop input_dir output_dir error_dir total_documents gs
          { fs := fs4
            document_index := document_index
            has_errors := acc.has_errors || !success
            calls := acc.calls ++ [(source_file, document_index, total_documents)]
            results := acc.results ++ [(source_file, success)] }
          rest

def batch_convert (input_dir output_dir error_dir : FPath) (gs : FPath → GsOutcome)
    (pdf_files : List FPath) (fs : FS) : Except PyError BatchAcc :=
  match batch_loop input_dir output_dir error_dir pdf_files.length gs
      ⟨fs, 0, false, [], []⟩ pdf_files with
  | .error e => .error e
  | .ok acc => .ok { acc with fs := clear_input_directory acc.fs input_dir }

/-- The expected `(source, document_index, total_documents)` call list:
the sources in order, with `document_index` counting up from
`startIdx + 1`. -/
def callList (total : Nat) (startIdx : Nat) : List FPath → List (FPath × Nat × Nat)
  | [] => []
  | f :: rest => (f, startIdx + 1, total) :: callList total (startIdx + 1) rest

/-- `gsSucceeds gs` is the value `convert_to_pdfa` returns for a run with
outcome `gs`, provided no stale file already sits at the output path:
success exactly when the exit code is 0 or the process left an output
file. -/
def gsSucceeds : GsOutcome → Bool
  | .completed code w => decide (code = 0) || w.isSome
  | _ => false

/-! ## Behavior lemmas -/

theorem lookup_remove_annotations (fs : FS) (p q : FPath) :
    (remove_annotations_and_comments fs p).lookup q =
      if q = p then (fs.lookup p).map stripAnnots else fs.lookup q := by
  rw [remove_annotations_and_comments, FS.lookup_updateFile]

theorem lookup_set_pdfa_metadata (fs : FS) (p q : FPath) :
    (set_pdfa_metadata fs p).lookup q =
      if q = p then (fs.lookup p).map (fun d => { d with meta := set_pdfa_metadata_meta d.meta })
      else fs.lookup q := by
  rw [set_pdfa_metadata, FS.lookup_updateFile]

/-- Full characterization of `move_to_error_directory`'s file table when the
source is a subpath of the input directory and exists: the source's content
lands at the error-tree destination, the source and any output file are
gone, everything else is untouched. -/
theorem move_to_error_spec (fs : FS) (source_path error_dir input_dir output_path rel : FPath)
    (c : PdfDoc)
    (hrel : source_path = input_dir ++ rel)
    (hso : source_path ≠ output_path)
    (hds : error_dir ++ rel ≠ source_path)
    (hsrc : fs.lookup source_path = some c) :
    ∀ q, (move_to_error_directory fs source_path error_dir input_dir output_path).lookup q =
      if q = error_dir ++ rel then some c
      else if q = source_path then none
      else if q = output_path then none
      else fs.lookup q := by
  intro q
  have hpfx : pfx input_dir source_path = true := hrel ▸ pfx_append input_dir rel
  have hdrop : source_path.drop input_dir.length = rel := by
    subst hrel; simp
  have hr : relativeTo source_path input_dir = some rel := by
    rw [relativeTo, if_pos hpfx, hdrop]
  have hl : (mkdirParents (fs.removeFile output_path) (error_dir ++ rel)).lookup source_path
      = some c := by
    rw [FS.lookup_mkdirParents, FS.lookup_removeFile, if_neg hso, hsrc]
  simp only [move_to_error_directory, hr, hl]
  rw [FS.lookup_writeFile, FS.lookup_removeFile, FS.lookup_mkdirParents, FS.lookup_removeFile]


/-- Helper: the filesystem facts common to every failing branch of
`convert_to_pdfa` (which all end in `move_to_error_directory`). -/
theorem convert_fail_shape (fsx fs : FS) (input_dir output_dir error_dir rel : FPath)
    (c : PdfDoc)
    (hso : input_dir ++ rel ≠ output_dir ++ rel)
    (hds : error_dir ++ rel ≠ input_dir ++ rel)
    (hdo : error_dir ++ rel ≠ output_dir ++ rel)
    (hxs : fsx.lookup (input_dir ++ rel) = some (stripAnnots c))
    (hxq : ∀ q, q ≠ input_dir ++ rel → q ≠ output_dir ++ rel → fsx.lookup q = fs.lookup q) :
    (∀ q, q ≠ input_dir ++ rel → q ≠ output_dir ++ rel → q ≠ error_dir ++ rel →
      (move_to_error_directory fsx (input_dir ++ rel) error_dir input_dir
        (output_dir ++ rel)).lookup q = fs.lookup q) ∧
    (move_to_error_directory fsx (input_dir ++ rel) error_dir input_dir
      (output_dir ++ rel)).lookup (input_dir ++ rel) = none ∧
    (move_to_error_directory fsx (input_dir ++ rel) error_dir input_dir
      (output_dir ++ rel)).lookup (error_dir ++ rel) = some (stripAnnots c) ∧
    (move_to_error_directory fsx (input_dir ++ rel) error_dir input_dir
      (output_dir ++ rel)).lookup (output_dir ++ rel) = none := by
  have hm := move_to_error_spec fsx (input_dir ++ rel) error_dir input_dir
    (output_dir ++ rel) rel (stripAnnots c) rfl hso hds hxs
  refine ⟨?_, ?_, ?_, ?_⟩
  · intro q hqs hqo hqe
    rw [hm q, if_neg hqe, if_neg hqs, if_neg hqo, hxq _ hqs hqo]
  · rw [hm _, if_neg (Ne.symm hds), if_pos rfl]
  · rw [hm _, if_pos rfl]
  · rw [hm _, if_neg (Ne.symm hdo), if_neg (Ne.symm hso), if_pos rfl]

/-- Helper: the filesystem facts common to both succeeding branches of
`convert_to_pdfa` (which stamp metadata on the output path). -/
theorem convert_succ_shape (fsx fs : FS) (input_dir output_dir rel : FPath) (c : PdfDoc)
    (hso : input_dir ++ rel ≠ output_dir ++ rel)
    (hxs : fsx.lookup (input_dir ++ rel) = some (stripAnnots c))
    (hxq : ∀ q, q ≠ input_dir ++ rel → q ≠ output_dir ++ rel → fsx.lookup q = fs.lookup q) :
    (∀ q, q ≠ input_dir ++ rel → q ≠ output_dir ++ rel →
      (set_pdfa_metadata fsx (output_dir ++ rel)).lookup q = fs.lookup q) ∧
    (set_pdfa_metadata fsx (output_dir ++ rel)).lookup (input_dir ++ rel)
      = some (stripAnnots c) := by
  constructor
  · intro q hqs hqo
    rw [lookup_set_pdfa_metadata, if_neg hqo, hxq _ hqs hqo]
  · rw [lookup_set_pdfa_metadata, if_neg hso, hxs]

/-- Full characterization of one `convert_to_pdfa` run in the pipeline
configuration: the source at `input_dir ++ rel` exists, nothing sits at the
output path yet, and the input, output and error trees are pairwise
non-nested.  The call returns `gsSucceeds gs`; on success the
(annotation-stripped) source file remains in place, on failure the source
has been moved to `error_dir ++ rel` and no output file remains; all other
paths are untouched. -/
theorem convert_run (gs : GsOutcome) (fs : FS) (input_dir output_dir error_dir rel : FPath)
    (c : PdfDoc)
    (hio : pfx input_dir output_dir = false) (hoi : pfx output_dir input_dir = false)
    (hie : pfx input_dir error_dir = false) (hei : pfx error_dir input_dir = false)
    (hoe : pfx output_dir error_dir = false) (heo : pfx error_dir output_dir = false)
    (hsrc : fs.lookup (input_dir ++ rel) = some c)
    (hout : fs.lookup (output_dir ++ rel) = none) :
    ∃ fs', convert_to_pdfa gs fs (input_dir ++ rel) (output_dir ++ rel) error_dir input_dir
        = .ok (gsSucceeds gs, fs') ∧
      (∀ q, q ≠ input_dir ++ rel → q ≠ output_dir ++ rel → q ≠ error_dir ++ rel →
        fs'.lookup q = fs.lookup q) ∧
      (gsSucceeds gs = true → fs'.lookup (input_dir ++ rel) = some (stripAnnots c)) ∧
      (gsSucceeds gs = false →
        fs'.lookup (input_dir ++ rel) = none ∧
        fs'.lookup (error_dir ++ rel) = some (stripAnnots c) ∧
        fs'.lookup (output_dir ++ rel) = none) := by
  have hso : input_dir ++ rel ≠ output_dir ++ rel :=
    ne_of_separate_trees input_dir output_dir (input_dir ++ rel) rel hio hoi (pfx_append _ _)
  have hds : error_dir ++ rel ≠ input_dir ++ rel :=
    ne_of_separate_trees error_dir input_dir (error_dir ++ rel) rel hei hie (pfx_append _ _)
  have hdo : error_dir ++ rel ≠ output_dir ++ rel :=
    ne_of_separate_trees error_dir output_dir (error_dir ++ rel) rel heo hoe (pfx_append _ _)
  have h1s : (remove_annotations_and_comments fs (input_dir ++ rel)).lookup (input_dir ++ rel)
      = some (stripAnnots c) := by
    rw [lookup_remove_annotations, if_pos rfl, hsrc]; rfl
  have h1q : ∀ q, q ≠ input_dir ++ rel →
      (remove_annotations_and_comments fs (input_dir ++ rel)).lookup q = fs.lookup q := by
    intro q hq; rw [lookup_remove_annotations, if_neg hq]
  have h1q2 : ∀ q, q ≠ input_dir ++ rel → q ≠ output_dir ++ rel →
      (remove_annotations_and_comments fs (input_dir ++ rel)).lookup q = fs.lookup q :=
    fun q hq _ => h1q q hq
  have h1o : (remove_annotations_and_comments fs (input_dir ++ rel)).lookup (output_dir ++ rel)
      = none := by rw [h1q _ (Ne.symm hso), hout]
  -- facts about the state after Ghostscript wrote a document `d`
  have hw_s : ∀ d : PdfDoc,
      ((remove_annotations_and_comments fs (input_dir ++ rel)).writeFile (output_dir ++ rel)
        d).lookup (input_dir ++ rel) = some (stripAnnots c) := by
    intro d; rw [FS.lookup_writeFile, if_neg hso, h1s]
  have hw_q : ∀ (d : PdfDoc) q, q ≠ input_dir ++ rel → q ≠ output_dir ++ rel →
      ((remove_annotations_and_comments fs (input_dir ++ rel)).writeFile (output_dir ++ rel)
        d).lookup q = fs.lookup q := by
    intro d q hqs hqo; rw [FS.lookup_writeFile, if_neg hqo, h1q _ hqs]
  -- facts about the state after the timeout handler deleted the output file
  have hrm_s : ∀ fsx : FS, fsx.lookup (input_dir ++ rel) = some (stripAnnots c) →
      (fsx.removeFile (output_dir ++ rel)).lookup (input_dir ++ rel)
        = some (stripAnnots c) := by
    intro fsx hx; rw [FS.lookup_removeFile, if_neg hso, hx]
  have hrm_q : ∀ fsx : FS,
      (∀ q, q ≠ input_dir ++ rel → q ≠ output_dir ++ rel → fsx.lookup q = fs.lookup q) →
      ∀ q, q ≠ input_dir ++ rel → q ≠ output_dir ++ rel →
      (fsx.removeFile (output_dir ++ rel)).lookup q = fs.lookup q := by
    intro fsx hx q hqs hqo; rw [FS.lookup_removeFile, if_neg hqo, hx _ hqs hqo]
  cases gs with
  | completed code w =>
    by_cases hc : code = 0
    · subst hc
      cases w with
      | none =>
        obtain ⟨hA, hB⟩ := convert_succ_shape
          (remove_annotations_and_comments fs (input_dir ++ rel)) fs
          input_dir output_dir rel c hso h1s h1q2
        refine ⟨_, ?_, fun q hqs hqo _ => hA q hqs hqo, fun _ => hB, ?_⟩
        · simp [convert_to_pdfa, hsrc, GsOutcome.written, gsSucceeds]
        · intro h; simp [gsSucceeds] at h
      | some d =>
        obtain ⟨hA, hB⟩ := convert_succ_shape
          ((remove_annotations_and_comments fs (input_dir ++ rel)).writeFile
            (output_dir ++ rel) d) fs
          input_dir output_dir rel c hso (hw_s d) (hw_q d)
        refine ⟨_, ?_, fun q hqs hqo _ => hA q hqs hqo, fun _ => hB, ?_⟩
        · simp [convert_to_pdfa, hsrc, GsOutcome.written, gsSucceeds]
        · intro h; simp [gsSucceeds] at h
    · cases w with
      | some d =>
        obtain ⟨hA, hB⟩ := convert_succ_shape
          ((remove_annotations_and_comments fs (input_dir ++ rel)).writeFile
            (output_dir ++ rel) d) fs
          input_dir output_dir rel c hso (hw_s d) (hw_q d)
        refine ⟨_, ?_, fun q hqs hqo _ => hA q hqs hqo, fun _ => hB, ?_⟩
        · have hex : (((remove_annotations_and_comments fs (input_dir ++ rel)).writeFile
              (output_dir ++ rel) d).lookup (output_dir ++ rel)).isSome = true := by
            rw [FS.lookup_writeFile, if_pos rfl]; rfl
          simp [convert_to_pdfa, hsrc, GsOutcome.written, gsSucceeds, hc, hex]
        · intro h; simp [gsSucceeds] at h
      | none =>
        obtain ⟨hA, hB, hC, hD⟩ := convert_fail_shape
          (remove_annotations_and_comments fs (input_dir ++ rel)) fs
          input_dir output_dir error_dir rel c hso hds hdo h1s h1q2
        refine ⟨_, ?_, hA, ?_, fun _ => ⟨hB, hC, hD⟩⟩
        · have hex : (((remove_annotations_and_comments fs (input_dir ++ rel))).lookup
              (output_dir ++ rel)).isSome = false := by rw [h1o]; rfl
          simp [convert_to_pdfa, hsrc, GsOutcome.written, gsSucceeds, hc, hex]
        · intro h; simp [gsSucceeds, hc] at h
  | timedOut w =>
    cases w with
    | none =>
      obtain ⟨hA, hB, hC, hD⟩ := convert_fail_shape
        ((remove_annotations_and_comments fs (input_dir ++ rel)).removeFile
          (output_dir ++ rel)) fs
        input_dir output_dir error_dir rel c hso hds hdo
        (hrm_s _ h1s) (hrm_q _ h1q2)
      refine ⟨_, ?_, hA, ?_, fun _ => ⟨hB, hC, hD⟩⟩
      · simp [convert_to_pdfa, hsrc, GsOutcome.written, gsSucceeds]
      · intro h; simp [gsSucceeds] at h
    | some d =>
      obtain ⟨hA, hB, hC, hD⟩ := convert_fail_shape
        (((remove_annotations_and_comments fs (input_dir ++ rel)).writeFile
          (output_dir ++ rel) d).removeFile (output_dir ++ rel)) fs
        input_dir output_dir error_dir rel c hso hds hdo
        (hrm_s _ (hw_s d)) (hrm_q _ (hw_q d))
      refine ⟨_, ?_, hA, ?_, fun _ => ⟨hB, hC, hD⟩⟩
      · simp [convert_to_pdfa, hsrc, GsOutcome.written, gsSucceeds]
      · intro h; simp [gsSucceeds] at h
  | calledProcessError w =>
    cases w with
    | none =>
      obtain ⟨hA, hB, hC, hD⟩ := convert_fail_shape
        (remove_annotations_and_comments fs (input_dir ++ rel)) fs
        input_dir output_dir error_dir rel c hso hds hdo h1s h1q2
      refine ⟨_, ?_, hA, ?_, fun _ => ⟨hB, hC, hD⟩⟩
      · simp [convert_to_pdfa, hsrc, GsOutcome.written, gsSucceeds]
      · intro h; simp [gsSucceeds] at h
    | some d =>
      obtain ⟨hA, hB, hC, hD⟩ := convert_fail_shape
        ((remove_annotations_and_comments fs (input_dir ++ rel)).writeFile
          (output_dir ++ rel) d) fs
        input_dir output_dir error_dir rel c hso hds hdo (hw_s d) (hw_q d)
      refine ⟨_, ?_, hA, ?_, fun _ => ⟨hB, hC, hD⟩⟩
      · simp [convert_to_pdfa, hsrc, GsOutcome.written, gsSucceeds]
      · intro h; simp [gsSucceeds] at h
  | otherError w =>
    cases w with
    | none =>
      obtain ⟨hA, hB, hC, hD⟩ := convert_fail_shape
        (remove_annotations_and_comments fs (input_dir ++ rel)) fs
        input_dir output_dir error_dir rel c hso hds hdo h1s h1q2
      refine ⟨_, ?_, hA, ?_, fun _ => ⟨hB, hC, hD⟩⟩
      · simp [convert_to_pdfa, hsrc, GsOutcome.written, gsSucceeds]
      · intro h; simp [gsSucceeds] at h
    | some d =>
      obtain ⟨hA, hB, hC, hD⟩ := convert_fail_shape
        ((remove_annotations_and_comments fs (input_dir ++ rel)).writeFile
          (output_dir ++ rel) d) fs
        input_dir output_dir error_dir rel c hso hds hdo (hw_s d) (hw_q d)
      refine ⟨_, ?_, hA, ?_, fun _ => ⟨hB, hC, hD⟩⟩
      · simp [convert_to_pdfa, hsrc, GsOutcome.written, gsSucceeds]
      · intro h; simp [gsSucceeds] at h

theorem files_rmdirRaw (fs : FS) (p : FPath) : (rmdirRaw fs p).files = fs.files := rfl

theorem files_tryRmdir (fs : FS) (p : FPath) : (tryRmdir fs p).files = fs.files := by
  unfold tryRmdir; split <;> rfl

theorem files_remove_empty_directories (fs : FS) (p root_dir : FPath) :
    (remove_empty_directories fs p root_dir).files = fs.files := by
  induction fs, p, root_dir using remove_empty_directories.induct with
  | case1 fs p root h1 h2 =>
    rw [remove_empty_directories, if_pos h1, if_pos h2]
  | case2 fs p root h1 h2 x h3 ih =>
    rw [remove_empty_directories, if_pos h1, if_neg h2, if_pos h3]
    exact ih
  | case3 fs p root h1 h2 h3 =>
    rw [remove_empty_directories, if_pos h1, if_neg h2, if_neg h3]
    rfl
  | case4 fs p root h1 =>
    rw [remove_empty_directories, if_neg h1]

theorem FS.lookup_remove_empty_directories (fs : FS) (p root_dir q : FPath) :
    (remove_empty_directories fs p root_dir).lookup q = fs.lookup q := by
  rw [FS.lookup, FS.lookup, files_remove_empty_directories]

theorem append_right_inj (a : FPath) {b c : FPath} (h : a ++ b = a ++ c) : b = c := by
  induction a with
  | nil => exact h
  | cons x xs ih =>
    simp only [List.cons_append, List.cons.injEq] at h
    exact ih h.2

/-- Master lemma for `batch_loop`: when the input, output and error trees
are pairwise non-nested, the listed source files are distinct, live under
the input directory and exist, and no stale files sit at their output
paths, the loop runs to completion; it logs one `convert_to_pdfa` call per
file with consecutive `document_index` values, records `gsSucceeds` as each
call's result, leaves every unrelated path untouched, deletes each
successfully converted source, and moves each failed source (annotation-
stripped) to its error-tree destination. -/
theorem batch_loop_spec (input_dir output_dir error_dir : FPath) (total : Nat)
    (gs : FPath → GsOutcome)
    (hio : pfx input_dir output_dir = false) (hoi : pfx output_dir input_dir = false)
    (hie : pfx input_dir error_dir = false) (hei : pfx error_dir input_dir = false)
    (hoe : pfx output_dir error_dir = false) (heo : pfx error_dir output_dir = false) :
    ∀ (files : List FPath) (acc : BatchAcc),
    files.Nodup →
    (∀ f ∈ files, pfx input_dir f = true) →
    (∀ f ∈ files, (acc.fs.lookup f).isSome = true) →
    (∀ f ∈ files, acc.fs.lookup (output_dir ++ f.drop input_dir.length) = none) →
    ∃ acc', batch_loop input_dir output_dir error_dir total gs acc files = .ok acc' ∧
      acc'.document_index = acc.document_index + files.length ∧
      acc'.calls = acc.calls ++ callList total acc.document_index files ∧
      acc'.results = acc.results ++ files.map (fun f => (f, gsSucceeds (gs f))) ∧
      (∀ q : FPath, (∀ f ∈ files, q ≠ f ∧ q ≠ output_dir ++ f.drop input_dir.length ∧
          q ≠ error_dir ++ f.drop input_dir.length) →
        acc'.fs.lookup q = acc.fs.lookup q) ∧
      (∀ f ∈ files,
        (gsSucceeds (gs f) = true → acc'.fs.lookup f = none) ∧
        (gsSucceeds (gs f) = false →
          acc'.fs.lookup (error_dir ++ f.drop input_dir.length)
            = (acc.fs.lookup f).map stripAnnots)) := by
  intro files
  induction files with
  | nil =>
    intro acc _ _ _ _
    exact ⟨acc, rfl, by simp, by simp [callList], by simp, fun q _ => rfl,
      fun f hf => absurd hf (List.not_mem_nil f)⟩
  | cons f rest ih =>
    intro acc hnd hunder hex hout
    have hpf : pfx input_dir f = true := hunder f (List.mem_cons_self f rest)
    have hfr : input_dir ++ f.drop input_dir.length = f := append_drop_of_pfx _ _ hpf
    have hfnotin : f ∉ rest := (List.nodup_cons.1 hnd).1
    have hndr : rest.Nodup := (List.nodup_cons.1 hnd).2
    have hne_in_out : ∀ x, pfx input_dir x = true → ∀ r, x ≠ output_dir ++ r :=
      fun x hx r => ne_of_separate_trees input_dir output_dir x r hio hoi hx
    have hne_in_err : ∀ x, pfx input_dir x = true → ∀ r, x ≠ error_dir ++ r :=
      fun x hx r => ne_of_separate_trees input_dir error_dir x r hie hei hx
    have hne_out_err : ∀ r r', output_dir ++ r ≠ error_dir ++ r' :=
      fun r r' => ne_of_separate_trees output_dir error_dir (output_dir ++ r) r' hoe heo
        (pfx_append _ _)
    have hne_err_out : ∀ r r', error_dir ++ r ≠ output_dir ++ r' :=
      fun r r' => ne_of_separate_trees error_dir output_dir (error_dir ++ r) r' heo hoe
        (pfx_append _ _)
    have hrel_inj : ∀ g, pfx input_dir g = true →
        g.drop input_dir.length = f.drop input_dir.length → g = f := by
      intro g hpg h
      have hgr := append_drop_of_pfx input_dir g hpg
      rw [h] at hgr
      exact hgr.symm.trans hfr
    have hgne : ∀ g ∈ rest, g ≠ f := fun g hg hgf => hfnotin (hgf ▸ hg)
    obtain ⟨c, hc⟩ := Option.isSome_iff_exists.1 (hex f (List.mem_cons_self f rest))
    have hsrcm : (mkdirParents acc.fs (output_dir ++ f.drop input_dir.length)).lookup
        (input_dir ++ f.drop input_dir.length) = some c := by
      rw [FS.lookup_mkdirParents, hfr, hc]
    have houtm : (mkdirParents acc.fs (output_dir ++ f.drop input_dir.length)).lookup
        (output_dir ++ f.drop input_dir.length) = none := by
      rw [FS.lookup_mkdirParents]
      exact hout f (List.mem_cons_self f rest)
    obtain ⟨fs', heq, hframe, hsucc, hfail⟩ :=
      convert_run (gs f) (mkdirParents acc.fs (output_dir ++ f.drop input_dir.length))
        input_dir output_dir error_dir (f.drop input_dir.length) c
        hio hoi hie hei hoe heo hsrcm houtm
    rw [hfr] at heq hframe hsucc hfail
    have hframe2 : ∀ q, q ≠ f → q ≠ output_dir ++ f.drop input_dir.length →
        q ≠ error_dir ++ f.drop input_dir.length → fs'.lookup q = acc.fs.lookup q := by
      intro q h1 h2 h3
      rw [hframe q h1 h2 h3, FS.lookup_mkdirParents]
    have hstep : ∀ q : FPath, q ≠ f → q ≠ output_dir ++ f.drop input_dir.length →
        q ≠ error_dir ++ f.drop input_dir.length →
        (remove_empty_directories (if gsSucceeds (gs f) then fs'.removeFile f else fs')
          (parentDir f) input_dir).lookup q = acc.fs.lookup q := by
      intro q h1 h2 h3
      rw [FS.lookup_remove_empty_directories]
      cases hgs : gsSucceeds (gs f)
      · simp only [hgs, Bool.false_eq_true, if_false]
        exact hframe2 q h1 h2 h3
      · simp only [hgs, if_true]
        rw [FS.lookup_removeFile, if_neg h1]
        exact hframe2 q h1 h2 h3
    have hrelf : relativeTo f input_dir = some (f.drop input_dir.length) := by
      rw [relativeTo, if_pos hpf]
    have hprot : ∀ g ∈ rest,
        g ≠ f ∧ g ≠ output_dir ++ f.drop input_dir.length ∧
        g ≠ error_dir ++ f.drop input_dir.length :=
      fun g hg => ⟨hgne g hg, hne_in_out g (hunder g (List.mem_cons_of_mem f hg)) _,
        hne_in_err g (hunder g (List.mem_cons_of_mem f hg)) _⟩
    have hprot_out : ∀ g ∈ rest,
        output_dir ++ g.drop input_dir.length ≠ f ∧
        output_dir ++ g.drop input_dir.length ≠ output_dir ++ f.drop input_dir.length ∧
        output_dir ++ g.drop input_dir.length ≠ error_dir ++ f.drop input_dir.length := by
      intro g hg
      refine ⟨Ne.symm (hne_in_out f hpf _), ?_, hne_out_err _ _⟩
      intro h
      exact hgne g hg (hrel_inj g (hunder g (List.mem_cons_of_mem f hg))
        (append_right_inj output_dir h))
    have hex' : ∀ g ∈ rest,
        ((remove_empty_directories (if gsSucceeds (gs f) then fs'.removeFile f else fs')
          (parentDir f) input_dir).lookup g).isSome = true := by
      intro g hg
      obtain ⟨h1, h2, h3⟩ := hprot g hg
      rw [hstep g h1 h2 h3]
      exact hex g (List.mem_cons_of_mem f hg)
    have hout' : ∀ g ∈ rest,
        (remove_empty_directories (if gsSucceeds (gs f) then fs'.removeFile f else fs')
          (parentDir f) input_dir).lookup (output_dir ++ g.drop input_dir.length) = none := by
      intro g hg
      obtain ⟨h1, h2, h3⟩ := hprot_out g hg
      rw [hstep _ h1 h2 h3]
      exact hout g (List.mem_cons_of_mem f hg)
    obtain ⟨acc', hloop, hdi, hcalls, hres, hfr2, hperfile⟩ :=
      ih ⟨remove_empty_directories (if gsSucceeds (gs f) then fs'.removeFile f else fs')
            (parentDir f) input_dir,
          acc.document_index + 1,
          acc.has_errors || !gsSucceeds (gs f),
          acc.calls ++ [(f, acc.document_index + 1, total)],
          acc.results ++ [(f, gsSucceeds (gs f))]⟩
        hndr
        (fun g hg => hunder g (List.mem_cons_of_mem f hg))
        hex' hout'
    refine ⟨acc', ?_, ?_, ?_, ?_, ?_, ?_⟩
    · simp only [batch_loop, hrelf, heq]
      exact hloop
    · rw [hdi]
      simp only [List.length_cons]
      omega
    · rw [hcalls]
      simp [callList, List.append_assoc]
    · rw [hres]
      simp [List.append_assoc]
    · intro q hq
      obtain ⟨h1, h2, h3⟩ := hq f (List.mem_cons_self f rest)
      rw [hfr2 q (fun g hg => hq g (List.mem_cons_of_mem f hg))]
      exact hstep q h1 h2 h3
    · intro g hg
      rcases List.mem_cons.1 hg with rfl | hg2
      · constructor
        · intro hgs
          have hq : ∀ x ∈ rest, g ≠ x ∧ g ≠ output_dir ++ x.drop input_dir.length ∧
              g ≠ error_dir ++ x.drop input_dir.length :=
            fun x hx => ⟨fun h => hfnotin (h ▸ hx), hne_in_out g hpf _, hne_in_err g hpf _⟩
          rw [hfr2 g hq, FS.lookup_remove_empty_directories]
          simp only [hgs, if_true]
          rw [FS.lookup_removeFile, if_pos rfl]
        · intro hgs
          have hq : ∀ x ∈ rest,
              error_dir ++ g.drop input_dir.length ≠ x ∧
              error_dir ++ g.drop input_dir.length ≠ output_dir ++ x.drop input_dir.length ∧
              error_dir ++ g.drop input_dir.length ≠ error_dir ++ x.drop input_dir.length := by
            intro x hx
            refine ⟨Ne.symm (hne_in_err x (hunder x (List.mem_cons_of_mem g hx)) _),
              hne_err_out _ _, ?_⟩
            intro h
            exact hgne x hx (hrel_inj x (hunder x (List.mem_cons_of_mem g hx))
              (append_right_inj error_dir h).symm)
          rw [hfr2 _ hq, FS.lookup_remove_empty_directories]
          simp only [hgs, Bool.false_eq_true, if_false]
          rw [(hfail hgs).2.1, hc]
          rfl
      · obtain ⟨hA, hB⟩ := hperfile g hg2
        obtain ⟨h1, h2, h3⟩ := hprot g hg2
        refine ⟨hA, ?_⟩
        intro hgs
        rw [hB hgs, hstep g h1 h2 h3]

theorem assocLookup_filterKey {α β : Type} [DecidableEq α] (P : α → Bool) (l : List (α × β))
    (a : α) :
    assocLookup (l.filter (fun e => P e.1)) a =
      if P a = true then assocLookup l a else none := by
  induction l with
  | nil => by_cases h : P a = true <;> simp [assocLookup, h]
  | cons e t ih =>
    obtain ⟨k, v⟩ := e
    cases hk : P k with
    | false =>
      simp only [List.filter_cons, hk, Bool.false_eq_true, if_false, ih]
      by_cases hka : k = a
      · subst hka; simp [hk]
      · simp [assocLookup_cons, hka]
    | true =>
      simp only [List.filter_cons, hk, if_true, assocLookup_cons, ih]
      by_cases hka : k = a
      · subst hka; simp [hk]
      · simp [assocLookup_cons, hka]

theorem files_fold_tryRmdir (l : List FPath) (fs : FS) :
    (l.foldl
      (fun acc d => if strContains (baseName d) "PDFA_IN" then acc else tryRmdir acc d)
      fs).files = fs.files := by
  induction l generalizing fs with
  | nil => rfl
  | cons d t ih =>
    rw [List.foldl_cons, ih]
    split
    · rfl
    · exact files_tryRmdir fs d

theorem FS.lookup_clear_input_directory (fs : FS) (directory q : FPath) :
    (clear_input_directory fs directory).lookup q =
      if pfx directory q && decide (q ≠ directory) then none else fs.lookup q := by
  have h1 : (clear_input_directory fs directory).lookup q
      = assocLookup (fs.files.filter
          (fun e => !(pfx directory e.1 && decide (e.1 ≠ directory)))) q := by
    rw [FS.lookup, clear_input_directory, files_fold_tryRmdir]
  rw [h1, assocLookup_filterKey (fun x => !(pfx directory x && decide (x ≠ directory)))]
  cases hb : pfx directory q && decide (q ≠ directory) <;> simp [hb, FS.lookup]

theorem callList_map_source (total start : Nat) (l : List FPath) :
    (callList total start l).map (fun t => t.1) = l := by
  induction l generalizing start with
  | nil => rfl
  | cons f rest ih => simp [callList, ih]

theorem callList_map_index (total start : Nat) (l : List FPath) :
    (callList total start l).map (fun t => t.2.1)
      = (List.range l.length).map (fun i => start + i + 1) := by
  induction l generalizing start with
  | nil => rfl
  | cons f rest ih =>
    simp only [callList, List.map_cons, List.length_cons, List.range_succ_eq_map,
      ih, List.map_map]
    congr 1
    apply List.map_congr_left
    intro i _
    simp only [Function.comp]
    omega

theorem callList_total_const (total start : Nat) (l : List FPath) :
    ∀ t ∈ callList total start l, t.2.2 = total := by
  induction l generalizing start with
  | nil => intro t ht; cases ht
  | cons f rest ih =>
    intro t ht
    rcases List.mem_cons.1 ht with rfl | ht2
    · rfl
    · exact ih (start + 1) t ht2

/-- `batch_convert` end-to-end: the loop conclusions of `batch_loop_spec`
survive the final `clear_input_directory` (which only touches files
strictly under the input directory). -/
theorem batch_convert_spec (input_dir output_dir error_dir : FPath)
    (gs : FPath → GsOutcome) (pdf_files : List FPath) (fs : FS)
    (hio : pfx input_dir output_dir = false) (hoi : pfx output_dir input_dir = false)
    (hie : pfx input_dir error_dir = false) (hei : pfx error_dir input_dir = false)
    (hoe : pfx output_dir error_dir = false) (heo : pfx error_dir output_dir = false)
    (hnd : pdf_files.Nodup)
    (hunder : ∀ f ∈ pdf_files, pfx input_dir f = true)
    (hex : ∀ f ∈ pdf_files, (fs.lookup f).isSome = true)
    (hout : ∀ f ∈ pdf_files, fs.lookup (output_dir ++ f.drop input_dir.length) = none) :
    ∃ acc, batch_convert input_dir output_dir error_dir gs pdf_files fs = .ok acc ∧
      acc.document_index = pdf_files.length ∧
      acc.calls = callList pdf_files.length 0 pdf_files ∧
      acc.results = pdf_files.map (fun f => (f, gsSucceeds (gs f))) ∧
      (∀ f ∈ pdf_files,
        (gsSucceeds (gs f) = true → acc.fs.lookup f = none) ∧
        (gsSucceeds (gs f) = false →
          acc.fs.lookup (error_dir ++ f.drop input_dir.length)
            = (fs.lookup f).map stripAnnots)) := by
  obtain ⟨acc', hloop, hdi, hcalls, hres, _hframe, hperfile⟩ :=
    batch_loop_spec input_dir output_dir error_dir pdf_files.length gs
      hio hoi hie hei hoe heo pdf_files ⟨fs, 0, false, [], []⟩ hnd hunder hex hout
  refine ⟨{ acc' with fs := clear_input_directory acc'.fs input_dir }, ?_, ?_, ?_, ?_, ?_⟩
  · rw [batch_convert, hloop]
  · simpa using hdi
  · simpa using hcalls
  · simpa using hres
  · intro f hf
    obtain ⟨hA, hB⟩ := hperfile f hf
    constructor
    · intro hgs
      show (clear_input_directory acc'.fs input_dir).lookup f = none
      rw [FS.lookup_clear_input_directory]
      rw [hA hgs]
      split <;> rfl
    · intro hgs
      show (clear_input_directory acc'.fs input_dir).lookup
        (error_dir ++ f.drop input_dir.length) = (fs.lookup f).map stripAnnots
      have hpb : pfx input_dir (error_dir ++ f.drop input_dir.length) = false := by
        cases hb : pfx input_dir (error_dir ++ f.drop input_dir.length) with
        | false => rfl
        | true =>
          exfalso
          rcases pfx_comparable input_dir error_dir (error_dir ++ f.drop input_dir.length)
            hb (pfx_append _ _) with h | h
          · rw [hie] at h; exact Bool.false_ne_true h
          · rw [hei] at h; exact Bool.false_ne_true h
      rw [FS.lookup_clear_input_directory, hpb]
      simpa using hB hgs

/-! ## Concrete sample data, used by witnesses and counterexamples -/

def pageWithAnnots : PdfPage := ⟨[("/Type", "Page"), ("/Annots", "3 0 R")]⟩

def pagePlain : PdfPage := ⟨[("/Type", "Page")]⟩

def docA : PdfDoc := ⟨[pageWithAnnots], [("dc:title", "Untitled")], 2048⟩

def docB : PdfDoc := ⟨[pagePlain], [("dc:creator", "someone")], 4096⟩

def fsSample : FS :=
  ⟨[(["IN", "a.pdf"], docA), (["IN", "sub", "b.pdf"], docB)],
   [["IN"], ["IN", "sub"], ["OUT"], ["ERR"]]⟩

def gsSample : FPath → GsOutcome := fun f =>
  if f = ["IN", "a.pdf"] then GsOutcome.completed 0 (some docB) else GsOutcome.timedOut none

def filesSample : List FPath := [["IN", "a.pdf"], ["IN", "sub", "b.pdf"]]

/-! ## Claim C1 -/

/-- C1: For every source PDF processed by `batch_convert`, if
`convert_to_pdfa` returns `True` (the per-file result recorded in
`acc.results` is `gsSucceeds (gs f)`), the source file is deleted from the
input tree; if it returns `False`, the source file is not deleted by
`batch_convert` — it still exists, relocated at its error-tree path. -/
theorem C1_success_deletes_failure_keeps
    (input_dir output_dir error_dir : FPath) (gs : FPath → GsOutcome)
    (pdf_files : List FPath) (fs : FS)
    (hio : pfx input_dir output_dir = false) (hoi : pfx output_dir input_dir = false)
    (hie : pfx input_dir error_dir = false) (hei : pfx error_dir input_dir = false)
    (hoe : pfx output_dir error_dir = false) (heo : pfx error_dir output_dir = false)
    (hnd : pdf_files.Nodup)
    (hunder : ∀ f ∈ pdf_files, pfx input_dir f = true)
    (hex : ∀ f ∈ pdf_files, (fs.lookup f).isSome = true)
    (hout : ∀ f ∈ pdf_files, fs.lookup (output_dir ++ f.drop input_dir.length) = none) :
    ∃ acc, batch_convert input_dir output_dir error_dir gs pdf_files fs = .ok acc ∧
      acc.results = pdf_files.map (fun f => (f, gsSucceeds (gs f))) ∧
      ∀ f ∈ pdf_files,
        (gsSucceeds (gs f) = true → acc.fs.lookup f = none) ∧
        (gsSucceeds (gs f) = false →
          (acc.fs.lookup (error_dir ++ f.drop input_dir.length)).isSome = true) := by
  obtain ⟨acc, h1, _h2, _h3, h4, h5⟩ := batch_convert_spec input_dir output_dir error_dir
    gs pdf_files fs hio hoi hie hei hoe heo hnd hunder hex hout
  refine ⟨acc, h1, h4, ?_⟩
  intro f hf
  obtain ⟨hA, hB⟩ := h5 f hf
  refine ⟨hA, fun hgs => ?_⟩
  rw [hB hgs]
  obtain ⟨c, hc⟩ := Option.isSome_iff_exists.1 (hex f hf)
  rw [hc]
  rfl

/-- Witness for C1: a concrete two-file batch in which the first conversion
succeeds and the second times out. -/
theorem C1_success_deletes_failure_keeps_witness :
    ∃ acc, batch_convert ["IN"] ["OUT"] ["ERR"] gsSample filesSample fsSample = .ok acc ∧
      acc.results = filesSample.map (fun f => (f, gsSucceeds (gsSample f))) ∧
      ∀ f ∈ filesSample,
        (gsSucceeds (gsSample f) = true → acc.fs.lookup f = none) ∧
        (gsSucceeds (gsSample f) = false →
          (acc.fs.lookup (["ERR"] ++ f.drop (["IN"] : FPath).length)).isSome = true) :=
  C1_success_deletes_failure_keeps ["IN"] ["OUT"] ["ERR"] gsSample filesSample fsSample
    (by decide) (by decide) (by decide) (by decide) (by decide) (by decide)
    (by decide) (by decide) (by decide) (by decide)

theorem countP_eq_one_of_nodup (l : List FPath) (hnd : l.Nodup) (f : FPath) (hf : f ∈ l) :
    l.countP (fun x => decide (x = f)) = 1 := by
  induction l with
  | nil => cases hf
  | cons a t ih =>
    rw [List.countP_cons]
    rcases List.mem_cons.1 hf with rfl | hf2
    · have hnotin : f ∉ t := (List.nodup_cons.1 hnd).1
      have hz : t.countP (fun x => decide (x = f)) = 0 := by
        rw [List.countP_eq_zero]
        intro x hx
        simp only [decide_eq_true_eq]
        exact fun he => hnotin (he ▸ hx)
      simp [hz]
    · have hne : a ≠ f := fun he => (List.nodup_cons.1 hnd).1 (he ▸ hf2)
      rw [ih (List.nodup_cons.1 hnd).2 hf2]
      simp [hne]

/-! ## Claim C9 -/

/-- C9: `batch_convert` processes the input as one linear sequential pass:
every listed `.pdf` file is passed to `convert_to_pdfa` exactly once with
no retries, `document_index` takes the values 1 through the number of files
in order, and `total_documents` equals that count. -/
theorem C9_single_linear_pass
    (input_dir output_dir error_dir : FPath) (gs : FPath → GsOutcome)
    (pdf_files : List FPath) (fs : FS)
    (hio : pfx input_dir output_dir = false) (hoi : pfx output_dir input_dir = false)
    (hie : pfx input_dir error_dir = false) (hei : pfx error_dir input_dir = false)
    (hoe : pfx output_dir error_dir = false) (heo : pfx error_dir output_dir = false)
    (hnd : pdf_files.Nodup)
    (hunder : ∀ f ∈ pdf_files, pfx input_dir f = true)
    (hex : ∀ f ∈ pdf_files, (fs.lookup f).isSome = true)
    (hout : ∀ f ∈ pdf_files, fs.lookup (output_dir ++ f.drop input_dir.length) = none) :
    ∃ acc, batch_convert input_dir output_dir error_dir gs pdf_files fs = .ok acc ∧
      acc.calls = callList pdf_files.length 0 pdf_files ∧
      acc.calls.map (fun t => t.1) = pdf_files ∧
      (∀ f ∈ pdf_files, acc.calls.countP (fun t => decide (t.1 = f)) = 1) ∧
      acc.calls.map (fun t => t.2.1) = (List.range pdf_files.length).map (fun i => i + 1) ∧
      (∀ t ∈ acc.calls, t.2.2 = pdf_files.length) ∧
      acc.document_index = pdf_files.length := by
  obtain ⟨acc, h1, h2, h3, _h4, _h5⟩ := batch_convert_spec input_dir output_dir error_dir
    gs pdf_files fs hio hoi hie hei hoe heo hnd hunder hex hout
  have hsrc : acc.calls.map (fun t => t.1) = pdf_files := by
    rw [h3, callList_map_source]
  refine ⟨acc, h1, h3, hsrc, ?_, ?_, ?_, h2⟩
  · intro f hf
    have hone := countP_eq_one_of_nodup pdf_files hnd f hf
    rw [← hsrc, List.countP_map] at hone
    simpa [Function.comp] using hone
  · rw [h3, callList_map_index]
    simp
  · intro t ht
    rw [h3] at ht
    exact callList_total_const pdf_files.length 0 pdf_files t ht

/-- Witness for C9 at the concrete two-file batch. -/
theorem C9_single_linear_pass_witness :
    ∃ acc, batch_convert ["IN"] ["OUT"] ["ERR"] gsSample filesSample fsSample = .ok acc ∧
      acc.calls = callList filesSample.length 0 filesSample ∧
      acc.calls.map (fun t => t.1) = filesSample ∧
      (∀ f ∈ filesSample, acc.calls.countP (fun t => decide (t.1 = f)) = 1) ∧
      acc.calls.map (fun t => t.2.1)
        = (List.range filesSample.length).map (fun i => i + 1) ∧
      (∀ t ∈ acc.calls, t.2.2 = filesSample.length) ∧
      acc.document_index = filesSample.length :=
  C9_single_linear_pass ["IN"] ["OUT"] ["ERR"] gsSample filesSample fsSample
    (by decide) (by decide) (by decide) (by decide) (by decide) (by decide)
    (by decide) (by decide) (by decide) (by decide)

/-! ## Claim C2 -/

theorem dirs_move_to_error_directory_mem (fs : FS)
    (source_path error_dir input_dir output_path rel : FPath) (c : PdfDoc)
    (hrel : source_path = input_dir ++ rel)
    (hso : source_path ≠ output_path)
    (hsrc : fs.lookup source_path = some c) (d : FPath)
    (hd : d ∈ properPrefixes (error_dir ++ rel)) :
    d ∈ (move_to_error_directory fs source_path error_dir input_dir output_path).dirs := by
  have hpfx : pfx input_dir source_path = true := hrel ▸ pfx_append input_dir rel
  have hdrop : source_path.drop input_dir.length = rel := by
    subst hrel; simp
  have hr : relativeTo source_path input_dir = some rel := by
    rw [relativeTo, if_pos hpfx, hdrop]
  have hl : (mkdirParents (fs.removeFile output_path) (error_dir ++ rel)).lookup source_path
      = some c := by
    rw [FS.lookup_mkdirParents, FS.lookup_removeFile, if_neg hso, hsrc]
  simp only [move_to_error_directory, hr, hl]
  rw [FS.dirs_writeFile, FS.dirs_removeFile]
  exact mem_dirs_foldl_addDir_of_mem _ _ _ hd

/-- C2: `move_to_error_directory` relocates the source file into the error
directory at the path obtained by replacing the input-directory prefix with
the error directory — the path relative to the input directory is preserved
under the error tree — creating the destination's parent directories as
needed. -/
theorem C2_move_preserves_relative_path
    (fs : FS) (source_path error_dir input_dir output_path : FPath) (c : PdfDoc)
    (hpfx : pfx input_dir source_path = true)
    (hso : source_path ≠ output_path)
    (hds : error_dir ++ source_path.drop input_dir.length ≠ source_path)
    (hsrc : fs.lookup source_path = some c) :
    (move_to_error_directory fs source_path error_dir input_dir output_path).lookup
        (error_dir ++ source_path.drop input_dir.length) = some c ∧
    (move_to_error_directory fs source_path error_dir input_dir output_path).lookup
        source_path = none ∧
    (source_path.drop input_dir.length ≠ [] →
      parentDir (error_dir ++ source_path.drop input_dir.length) ∈
        (move_to_error_directory fs source_path error_dir input_dir output_path).dirs) := by
  have hrel : source_path = input_dir ++ source_path.drop input_dir.length :=
    (append_drop_of_pfx _ _ hpfx).symm
  have hm := move_to_error_spec fs source_path error_dir input_dir output_path
    (source_path.drop input_dir.length) c hrel hso hds hsrc
  refine ⟨?_, ?_, ?_⟩
  · rw [hm _, if_pos rfl]
  · rw [hm _, if_neg (fun h => hds h.symm), if_pos rfl]
  · intro hne
    apply dirs_move_to_error_directory_mem fs source_path error_dir input_dir output_path
      (source_path.drop input_dir.length) c hrel hso hsrc
    have hlen : 0 < (error_dir ++ source_path.drop input_dir.length).length := by
      rw [List.length_append]
      cases hq : source_path.drop input_dir.length with
      | nil => exact absurd hq hne
      | cons x xs => simp
    rw [properPrefixes, parentDir, List.dropLast_eq_take]
    exact List.mem_map_of_mem _ (List.mem_range.2 (by omega))

/-- Witness for C2 at a concrete move. -/
theorem C2_move_preserves_relative_path_witness :
    (move_to_error_directory fsSample ["IN", "sub", "b.pdf"] ["ERR"] ["IN"]
        ["OUT", "sub", "b.pdf"]).lookup
        (["ERR"] ++ (["IN", "sub", "b.pdf"] : FPath).drop (["IN"] : FPath).length)
      = some docB ∧
    (move_to_error_directory fsSample ["IN", "sub", "b.pdf"] ["ERR"] ["IN"]
        ["OUT", "sub", "b.pdf"]).lookup ["IN", "sub", "b.pdf"] = none ∧
    ((["IN", "sub", "b.pdf"] : FPath).drop (["IN"] : FPath).length ≠ [] →
      parentDir (["ERR"] ++ (["IN", "sub", "b.pdf"] : FPath).drop (["IN"] : FPath).length) ∈
        (move_to_error_directory fsSample ["IN", "sub", "b.pdf"] ["ERR"] ["IN"]
          ["OUT", "sub", "b.pdf"]).dirs) :=
  C2_move_preserves_relative_path fsSample ["IN", "sub", "b.pdf"] ["ERR"] ["IN"]
    ["OUT", "sub", "b.pdf"] docB (by decide) (by decide) (by decide) (by decide)

instance {e a : Type} [DecidableEq e] [DecidableEq a] : DecidableEq (Except e a)
  | .error x, .error y =>
    if h : x = y then isTrue (congrArg Except.error h)
    else isFalse (fun he => h (Except.error.inj he))
  | .error _, .ok _ => isFalse (fun he => Except.noConfusion he)
  | .ok _, .error _ => isFalse (fun he => Except.noConfusion he)
  | .ok x, .ok y =>
    if h : x = y then isTrue (congrArg Except.ok h)
    else isFalse (fun he => h (Except.ok.inj he))

/-! ## Claim C3 -/

/-- The success classification `convert_to_pdfa` actually implements, as a
function of the process outcome and of whether a file already sits at the
output path before the run: success on exit code 0, or on a non-zero exit
when an output file exists (written by the process, or pre-existing). -/
def classify (gs : GsOutcome) (staleOutput : Bool) : Bool :=
  match gs with
  | .completed code w => decide (code = 0) || w.isSome || staleOutput
  | _ => false

/-- Counterexample to C3 as stated: the external process exits with the
non-zero code 1, yet `convert_to_pdfa` returns `True` (the source's
"completed with warnings" path), because an output file exists. -/
theorem C3_counterexample :
    (1 : Int) ≠ 0 ∧
    convResult (convert_to_pdfa (GsOutcome.completed 1 (some docB)) fsSample
      ["IN", "a.pdf"] ["OUT", "a.pdf"] ["ERR"] ["IN"]) = some true := by
  constructor
  · decide
  · decide

/-- C3 (amended): `convert_to_pdfa` returns `False` when the per-file
timeout expires, when the process raises, or when the process exits
non-zero and no output file exists; it returns `True` when the exit code is
zero, or when the exit code is non-zero but an output file exists —
`classify` of the run outcome and of the pre-run output-file state. -/
theorem C3_classification (gs : GsOutcome) (fs : FS)
    (source_path output_path error_dir input_dir : FPath) (c : PdfDoc)
    (hsrc : fs.lookup source_path = some c)
    (hos : output_path ≠ source_path) :
    convResult (convert_to_pdfa gs fs source_path output_path error_dir input_dir)
      = some (classify gs (fs.lookup output_path).isSome) := by
  cases gs with
  | completed code w =>
    by_cases hc : code = 0
    · subst hc
      cases w <;> simp [convert_to_pdfa, hsrc, GsOutcome.written, convResult, classify]
    · cases w with
      | some d =>
        have hw : (((remove_annotations_and_comments fs source_path).writeFile output_path
            d).lookup output_path).isSome = true := by
          rw [FS.lookup_writeFile, if_pos rfl]; rfl
        simp [convert_to_pdfa, hsrc, GsOutcome.written, convResult, classify, hc, hw]
      | none =>
        have h1 : (remove_annotations_and_comments fs source_path).lookup output_path
            = fs.lookup output_path := by
          rw [lookup_remove_annotations, if_neg hos]
        cases ho : (fs.lookup output_path).isSome with
        | true =>
          simp [convert_to_pdfa, hsrc, GsOutcome.written, convResult, classify, hc, h1, ho]
        | false =>
          simp [convert_to_pdfa, hsrc, GsOutcome.written, convResult, classify, hc, h1, ho]
  | timedOut w => simp [convert_to_pdfa, hsrc, GsOutcome.written, convResult, classify]
  | calledProcessError w =>
    simp [convert_to_pdfa, hsrc, GsOutcome.written, convResult, classify]
  | otherError w => simp [convert_to_pdfa, hsrc, GsOutcome.written, convResult, classify]

/-- Witness for the amended C3 at a concrete non-zero-exit run. -/
theorem C3_classification_witness :
    convResult (convert_to_pdfa (GsOutcome.completed 1 (some docB)) fsSample
        ["IN", "sub", "b.pdf"] ["OUT", "sub", "b.pdf"] ["ERR"] ["IN"])
      = some (classify (GsOutcome.completed 1 (some docB))
          (fsSample.lookup ["OUT", "sub", "b.pdf"]).isSome) :=
  C3_classification (GsOutcome.completed 1 (some docB)) fsSample
    ["IN", "sub", "b.pdf"] ["OUT", "sub", "b.pdf"] ["ERR"] ["IN"] docB
    (by decide) (by decide)

/-! ## Claim C5 -/

/-- After `move_to_error_directory`, no file sits at the output path
(provided the error tree does not reach back to the output path: the
destination `error_dir / rel` can then never equal `output_path`). -/
theorem move_to_error_output_gone (fs : FS)
    (source_path error_dir input_dir output_path : FPath)
    (heo : pfx error_dir output_path = false) :
    (move_to_error_directory fs source_path error_dir input_dir output_path).lookup
      output_path = none := by
  cases hr : relativeTo source_path input_dir with
  | none =>
    simp only [move_to_error_directory, hr]
    rw [FS.lookup_removeFile, if_pos rfl]
  | some rel =>
    have hne : output_path ≠ error_dir ++ rel := by
      intro h
      have hp := pfx_append error_dir rel
      rw [← h, heo] at hp
      exact Bool.false_ne_true hp
    simp only [move_to_error_directory, hr]
    cases hl : (mkdirParents (fs.removeFile output_path) (error_dir ++ rel)).lookup
        source_path with
    | none =>
      simp only [hl]
      rw [FS.lookup_mkdirParents, FS.lookup_removeFile, if_pos rfl]
    | some c =>
      simp only [hl]
      by_cases hosp : output_path = source_path
      · rw [FS.lookup_writeFile, if_neg hne, FS.lookup_removeFile, if_pos hosp]
      · rw [FS.lookup_writeFile, if_neg hne, FS.lookup_removeFile, if_neg hosp,
          FS.lookup_mkdirParents, FS.lookup_removeFile, if_pos rfl]

/-- C5: whenever `convert_to_pdfa` returns `False` (failure, including
timeout), the output file at `output_path` does not exist afterwards: any
partially written output is deleted before (and again by) the move of the
source to the error tree. -/
theorem C5_failure_leaves_no_output (gs : GsOutcome) (fs : FS)
    (source_path output_path error_dir input_dir : FPath) (fs' : FS)
    (heo : pfx error_dir output_path = false)
    (h : convert_to_pdfa gs fs source_path output_path error_dir input_dir
      = .ok (false, fs')) :
    fs'.lookup output_path = none := by
  cases hsrc : fs.lookup source_path with
  | none =>
    simp only [convert_to_pdfa, hsrc] at h
    exact Except.noConfusion h
  | some c =>
    cases gs with
    | completed code w =>
      simp only [convert_to_pdfa, hsrc, GsOutcome.written] at h
      by_cases hc : code = 0
      · rw [if_pos hc] at h
        simp at h
      · rw [if_neg hc] at h
        split at h
        · simp at h
        · injection h with h4
          injection h4 with hb hfs
          rw [← hfs]
          exact move_to_error_output_gone _ _ _ _ _ heo
    | timedOut w =>
      simp only [convert_to_pdfa, hsrc, GsOutcome.written] at h
      injection h with h4
      injection h4 with hb hfs
      rw [← hfs]
      exact move_to_error_output_gone _ _ _ _ _ heo
    | calledProcessError w =>
      simp only [convert_to_pdfa, hsrc, GsOutcome.written] at h
      injection h with h4
      injection h4 with hb hfs
      rw [← hfs]
      exact move_to_error_output_gone _ _ _ _ _ heo
    | otherError w =>
      simp only [convert_to_pdfa, hsrc, GsOutcome.written] at h
      injection h with h4
      injection h4 with hb hfs
      rw [← hfs]
      exact move_to_error_output_gone _ _ _ _ _ heo

/-- The filesystem left by the timed-out sample run. -/
def fsAfterTimeout : FS :=
  match convert_to_pdfa (GsOutcome.timedOut none) fsSample
      ["IN", "sub", "b.pdf"] ["OUT", "sub", "b.pdf"] ["ERR"] ["IN"] with
  | .ok (_, fsr) => fsr
  | .error _ => FS.mk [] []

/-- Witness for C5: the concrete timed-out run leaves no output file. -/
theorem C5_failure_leaves_no_output_witness :
    convert_to_pdfa (GsOutcome.timedOut none) fsSample
        ["IN", "sub", "b.pdf"] ["OUT", "sub", "b.pdf"] ["ERR"] ["IN"]
      = .ok (false, fsAfterTimeout) ∧
    fsAfterTimeout.lookup ["OUT", "sub", "b.pdf"] = none :=
  ⟨by decide, C5_failure_leaves_no_output (GsOutcome.timedOut none) fsSample
      ["IN", "sub", "b.pdf"] ["OUT", "sub", "b.pdf"] ["ERR"] ["IN"] fsAfterTimeout
      (by decide) (by decide)⟩

/-! ## Claim C10 -/

/-- Counterexample to C10 as stated: `source_path.stat()` is evaluated
outside the `try` block, so when the source file does not exist the
`FileNotFoundError` escapes `convert_to_pdfa` instead of yielding `False`. -/
theorem C10_counterexample :
    exceptOk (convert_to_pdfa (GsOutcome.completed 0 (some docB)) (FS.mk [] [])
      ["IN", "a.pdf"] ["OUT", "a.pdf"] ["ERR"] ["IN"]) = false := by
  decide

/-- C10 (amended): for every input whose source file exists,
`convert_to_pdfa` returns a boolean and never propagates an exception:
timeout, process errors and any other exception inside the conversion are
caught and turned into a `False` or `True` return. -/
theorem C10_total_when_source_exists (gs : GsOutcome) (fs : FS)
    (source_path output_path error_dir input_dir : FPath)
    (hsrc : (fs.lookup source_path).isSome = true) :
    exceptOk (convert_to_pdfa gs fs source_path output_path error_dir input_dir) = true := by
  obtain ⟨c, hc⟩ := Option.isSome_iff_exists.1 hsrc
  cases gs with
  | completed code w =>
    simp only [convert_to_pdfa, hc, GsOutcome.written]
    split_ifs <;> rfl
  | timedOut w => simp [convert_to_pdfa, hc, GsOutcome.written, exceptOk]
  | calledProcessError w => simp [convert_to_pdfa, hc, GsOutcome.written, exceptOk]
  | otherError w => simp [convert_to_pdfa, hc, GsOutcome.written, exceptOk]

/-- Witness for the amended C10 at a concrete run whose `try` body raises
an unexpected exception. -/
theorem C10_total_when_source_exists_witness :
    exceptOk (convert_to_pdfa (GsOutcome.otherError none) fsSample
      ["IN", "a.pdf"] ["OUT", "a.pdf"] ["ERR"] ["IN"]) = true :=
  C10_total_when_source_exists (GsOutcome.otherError none) fsSample
    ["IN", "a.pdf"] ["OUT", "a.pdf"] ["ERR"] ["IN"] (by decide)

/-! ## Claim C4 -/

/-- A document has a page whose dictionary still carries `/Annots`. -/
def docHasAnnots (d : PdfDoc) : Bool :=
  d.pages.any (fun pg => (assocLookup pg.entries "/Annots").isSome)

/-- Counterexample to C4 as stated: annotation stripping is *not* a
post-processing step on the converted output file.  In this successful
(exit code 0) run the process writes a document whose page carries
`/Annots`, and the final output file still carries it — because
`remove_annotations_and_comments` was applied to the source file before the
conversion, not to the output. -/
theorem C4_counterexample :
    convResult (convert_to_pdfa (GsOutcome.completed 0 (some docA)) fsSample
      ["IN", "sub", "b.pdf"] ["OUT", "sub", "b.pdf"] ["ERR"] ["IN"]) = some true ∧
    (Option.bind (convFS (convert_to_pdfa (GsOutcome.completed 0 (some docA)) fsSample
        ["IN", "sub", "b.pdf"] ["OUT", "sub", "b.pdf"] ["ERR"] ["IN"]))
      (fun fsr => fsr.lookup ["OUT", "sub", "b.pdf"])).map docHasAnnots = some true := by
  constructor
  · decide
  · decide

/-- C4 (amended): annotation stripping is applied as a *pre*-processing
step on the *source* file before conversion.  After
`remove_annotations_and_comments` runs on a PDF, no page of that PDF
retains an `/Annots` entry while all other page entries (and all other
files) are unchanged; inside `convert_to_pdfa` this transformation is
applied to `source_path` (witnessed by the source's content after a
successful run being its stripped original). -/
theorem C4_strip_is_preprocessing_on_source :
    (∀ d : PdfDoc, ∀ pg ∈ (stripAnnots d).pages,
      assocLookup pg.entries "/Annots" = none) ∧
    (∀ d : PdfDoc, (stripAnnots d).pages.length = d.pages.length) ∧
    (∀ pg : PdfPage, ∀ k, k ≠ "/Annots" →
      assocLookup (stripPage pg).entries k = assocLookup pg.entries k) ∧
    (∀ (fs : FS) (p q : FPath), (remove_annotations_and_comments fs p).lookup q
      = if q = p then (fs.lookup p).map stripAnnots else fs.lookup q) ∧
    (∀ (w : Option PdfDoc) (fs : FS)
      (source_path output_path error_dir input_dir : FPath) (c : PdfDoc),
      fs.lookup source_path = some c → source_path ≠ output_path →
      ∃ fs', convert_to_pdfa (GsOutcome.completed 0 w) fs source_path output_path
          error_dir input_dir = .ok (true, fs') ∧
        fs'.lookup source_path = some (stripAnnots c)) := by
  refine ⟨?_, ?_, ?_, ?_, ?_⟩
  · intro d pg hpg
    obtain ⟨pg0, _hpg0, rfl⟩ := List.mem_map.1 hpg
    rw [stripPage, assocLookup_eraseKey, if_pos rfl]
  · intro d
    exact List.length_map d.pages stripPage
  · intro pg k hk
    rw [stripPage, assocLookup_eraseKey, if_neg hk]
  · intro fs p q
    exact lookup_remove_annotations fs p q
  · intro w fs source_path output_path error_dir input_dir c hsrc hso
    have h1s : (remove_annotations_and_comments fs source_path).lookup source_path
        = some (stripAnnots c) := by
      rw [lookup_remove_annotations, if_pos rfl, hsrc]; rfl
    cases w with
    | none =>
      refine ⟨set_pdfa_metadata (remove_annotations_and_comments fs source_path)
        output_path, ?_, ?_⟩
      · simp [convert_to_pdfa, hsrc, GsOutcome.written]
      · rw [lookup_set_pdfa_metadata, if_neg hso, h1s]
    | some d =>
      refine ⟨set_pdfa_metadata ((remove_annotations_and_comments fs source_path).writeFile
        output_path d) output_path, ?_, ?_⟩
      · simp [convert_to_pdfa, hsrc, GsOutcome.written]
      · rw [lookup_set_pdfa_metadata, if_neg hso, FS.lookup_writeFile, if_neg hso, h1s]

/-- Witness for the amended C4: a concrete successful run in which the
source file's content afterwards is its annotation-stripped original. -/
theorem C4_strip_is_preprocessing_on_source_witness :
    ∃ fs', convert_to_pdfa (GsOutcome.completed 0 (some docA)) fsSample
        ["IN", "a.pdf"] ["OUT", "a.pdf"] ["ERR"] ["IN"] = .ok (true, fs') ∧
      fs'.lookup ["IN", "a.pdf"] = some (stripAnnots docA) :=
  C4_strip_is_preprocessing_on_source.2.2.2.2 (some docA) fsSample
    ["IN", "a.pdf"] ["OUT", "a.pdf"] ["ERR"] ["IN"] docA (by decide) (by decide)

/-! ## Claim C7 -/

theorem metaGet_metaSet_self (m : List (String × String)) (k v : String) :
    metaGet (metaSet m k v) k = some v := by
  rw [metaGet, metaSet, assocLookup_cons, if_pos rfl]

theorem metaGet_metaSet_ne (m : List (String × String)) (k v k' : String) (h : k' ≠ k) :
    metaGet (metaSet m k v) k' = metaGet m k' := by
  rw [metaGet, metaSet, assocLookup_cons, if_neg (fun he => h he.symm),
    assocLookup_eraseKey, if_neg h]
  rfl

theorem metaGet_metaDel (m : List (String × String)) (f k : String) :
    metaGet (metaDel m f) k = if k = f then none else metaGet m k :=
  assocLookup_eraseKey m f k

/-- One step of `_unset_empty_metadata`'s loop. -/
def unsetStep (acc : List (String × String)) (f : String) : List (String × String) :=
  match metaGet acc f with
  | some v => if v = "" then metaDel acc f else acc
  | none => acc

theorem unset_empty_metadata_eq_foldl (m : List (String × String)) :
    unset_empty_metadata m = emptyMetaFields.foldl unsetStep m := rfl

theorem metaGet_foldl_unsetStep (fields : List String) (k : String) :
    ∀ m : List (String × String),
    metaGet (fields.foldl unsetStep m) k = metaGet m k ∨
      metaGet (fields.foldl unsetStep m) k = none := by
  induction fields with
  | nil => intro m; exact Or.inl rfl
  | cons f rest ih =>
    intro m
    rw [List.foldl_cons]
    rcases ih (unsetStep m f) with h | h
    · rw [h]
      cases hv : metaGet m f with
      | none => exact Or.inl (by simp only [unsetStep, hv])
      | some v =>
        by_cases hve : v = ""
        · simp only [unsetStep, hv, if_pos hve]
          rw [metaGet_metaDel]
          by_cases hk : k = f
          · exact Or.inr (if_pos hk)
          · rw [if_neg hk]; exact Or.inl rfl
        · exact Or.inl (by simp only [unsetStep, hv, if_neg hve])
    · exact Or.inr h

theorem metaGet_foldl_unsetStep_not_mem (fields : List String) (k : String) :
    ∀ m : List (String × String), k ∉ fields →
    metaGet (fields.foldl unsetStep m) k = metaGet m k := by
  induction fields with
  | nil => intro m _; rfl
  | cons f rest ih =>
    intro m hk
    rw [List.foldl_cons, ih _ (fun h => hk (List.mem_cons_of_mem f h))]
    cases hv : metaGet m f with
    | none => simp only [unsetStep, hv]
    | some v =>
      by_cases hve : v = ""
      · simp only [unsetStep, hv, if_pos hve]
        rw [metaGet_metaDel,
          if_neg (fun he => hk (by rw [he]; exact List.mem_cons_self f rest))]
      · simp only [unsetStep, hv, if_neg hve]

/-- C7: After a successful conversion, `set_pdfa_metadata` stamps the
converted output file, writing exactly the four metadata fields
`xmp:CreatorTool`, `pdf:Producer`, `pdfaid:Conformance = "B"` and
`pdfaid:Part = "1"` (asserting PDF/A-1b conformance); every other field
either keeps its previous value or is removed — no other field is ever
set. -/
theorem C7_metadata_four_fields :
    (∀ m : List (String × String),
      metaGet (set_pdfa_metadata_meta m) "xmp:CreatorTool"
          = some ("pyPDFA v" ++ pyPDFA_version) ∧
      metaGet (set_pdfa_metadata_meta m) "pdf:Producer" = some "MySmartPlans.com" ∧
      metaGet (set_pdfa_metadata_meta m) "pdfaid:Conformance" = some "B" ∧
      metaGet (set_pdfa_metadata_meta m) "pdfaid:Part" = some "1") ∧
    (∀ (m : List (String × String)) (k : String),
      k ≠ "xmp:CreatorTool" → k ≠ "pdf:Producer" →
      k ≠ "pdfaid:Conformance" → k ≠ "pdfaid:Part" →
      metaGet (set_pdfa_metadata_meta m) k = metaGet m k ∨
        metaGet (set_pdfa_metadata_meta m) k = none) ∧
    (∀ (d : PdfDoc) (fs : FS)
      (source_path output_path error_dir input_dir : FPath) (c : PdfDoc),
      fs.lookup source_path = some c →
      ∃ fs', convert_to_pdfa (GsOutcome.completed 0 (some d)) fs source_path output_path
          error_dir input_dir = .ok (true, fs') ∧
        fs'.lookup output_path = some { d with meta := set_pdfa_metadata_meta d.meta }) := by
  have hm4 : ∀ (m : List (String × String)) (k : String),
      k ≠ "xmp:CreatorTool" → k ≠ "pdf:Producer" →
      k ≠ "pdfaid:Conformance" → k ≠ "pdfaid:Part" →
      metaGet (metaSet (metaSet (metaSet (metaSet m "xmp:CreatorTool"
          ("pyPDFA v" ++ pyPDFA_version)) "pdf:Producer" "MySmartPlans.com")
          "pdfaid:Conformance" "B") "pdfaid:Part" "1") k = metaGet m k := by
    intro m k h1 h2 h3 h4
    rw [metaGet_metaSet_ne _ _ _ _ h4, metaGet_metaSet_ne _ _ _ _ h3,
      metaGet_metaSet_ne _ _ _ _ h2, metaGet_metaSet_ne _ _ _ _ h1]
  refine ⟨?_, ?_, ?_⟩
  · intro m
    simp only [set_pdfa_metadata_meta, unset_empty_metadata_eq_foldl]
    refine ⟨?_, ?_, ?_, ?_⟩ <;>
      · rw [metaGet_foldl_unsetStep_not_mem _ _ _ (by decide)]
        split
        · first
            | rw [metaGet_metaDel, if_neg (by decide), metaGet_metaSet_self]
            | (rw [metaGet_metaDel, if_neg (by decide), metaGet_metaSet_ne _ _ _ _ (by decide),
                metaGet_metaSet_self])
            | (rw [metaGet_metaDel, if_neg (by decide), metaGet_metaSet_ne _ _ _ _ (by decide),
                metaGet_metaSet_ne _ _ _ _ (by decide), metaGet_metaSet_self])
            | (rw [metaGet_metaDel, if_neg (by decide), metaGet_metaSet_ne _ _ _ _ (by decide),
                metaGet_metaSet_ne _ _ _ _ (by decide), metaGet_metaSet_ne _ _ _ _ (by decide),
                metaGet_metaSet_self])
        · first
            | rw [metaGet_metaSet_self]
            | rw [metaGet_metaSet_ne _ _ _ _ (by decide), metaGet_metaSet_self]
            | (rw [metaGet_metaSet_ne _ _ _ _ (by decide),
                metaGet_metaSet_ne _ _ _ _ (by decide), metaGet_metaSet_self])
            | (rw [metaGet_metaSet_ne _ _ _ _ (by decide),
                metaGet_metaSet_ne _ _ _ _ (by decide),
                metaGet_metaSet_ne _ _ _ _ (by decide), metaGet_metaSet_self])
  · intro m k h1 h2 h3 h4
    simp only [set_pdfa_metadata_meta, unset_empty_metadata_eq_foldl]
    rcases metaGet_foldl_unsetStep emptyMetaFields k _ with h | h
    · rw [h]
      split
      · rw [metaGet_metaDel]
        by_cases hk : k = "dc:title"
        · exact Or.inr (if_pos hk)
        · rw [if_neg hk, hm4 m k h1 h2 h3 h4]
          exact Or.inl rfl
      · rw [hm4 m k h1 h2 h3 h4]
        exact Or.inl rfl
    · exact Or.inr h
  · intro d fs source_path output_path error_dir input_dir c hsrc
    refine ⟨set_pdfa_metadata ((remove_annotations_and_comments fs source_path).writeFile
      output_path d) output_path, ?_, ?_⟩
    · simp [convert_to_pdfa, hsrc, GsOutcome.written]
    · rw [lookup_set_pdfa_metadata, if_pos rfl, FS.lookup_writeFile, if_pos rfl]
      rfl

/-- Witness for C7: a concrete successful run stamping the output file's
metadata. -/
theorem C7_metadata_four_fields_witness :
    ∃ fs', convert_to_pdfa (GsOutcome.completed 0 (some docB)) fsSample
        ["IN", "a.pdf"] ["OUT", "a.pdf"] ["ERR"] ["IN"] = .ok (true, fs') ∧
      fs'.lookup ["OUT", "a.pdf"]
        = some { docB with meta := set_pdfa_metadata_meta docB.meta } :=
  C7_metadata_four_fields.2.2 docB fsSample
    ["IN", "a.pdf"] ["OUT", "a.pdf"] ["ERR"] ["IN"] docA (by decide)

/-! ## Claim C8 -/

/-- Well-formed filesystem: every proper ancestor of a file's path is an
existing directory. -/
def wfFS (fs : FS) : Prop :=
  ∀ e ∈ fs.files, ∀ n : ℕ, 0 < n → n < e.1.length → e.1.take n ∈ fs.dirs

theorem mem_dirs_rmdirRaw (fs : FS) (p d : FPath) (hd : d ∈ fs.dirs) (hne : d ≠ p) :
    d ∈ (rmdirRaw fs p).dirs :=
  List.mem_filter.2 ⟨hd, by simp [hne]⟩

theorem mem_dirs_tryRmdir (fs : FS) (p d : FPath) (hd : d ∈ fs.dirs) (hne : d ≠ p) :
    d ∈ (tryRmdir fs p).dirs := by
  rw [tryRmdir]
  split
  · exact mem_dirs_rmdirRaw fs p d hd hne
  · exact hd

theorem parentDir_take_succ (l : FPath) (n : ℕ) (h : n + 1 ≤ l.length) :
    parentDir (l.take (n + 1)) = l.take n := by
  rw [parentDir, List.dropLast_eq_take, List.length_take]
  have h1 : min (n + 1) l.length = n + 1 := by omega
  rw [h1, Nat.add_sub_cancel, List.take_take]
  have h2 : min n (n + 1) = n := by omega
  rw [h2]

/-- A directory that is a proper prefix of some file's path has a child
(the file itself, or the next directory on the path, which exists by
well-formedness). -/
theorem hasChild_of_take (fs : FS) (e : FPath × PdfDoc) (he : e ∈ fs.files)
    (hwf : wfFS fs) (n : ℕ) (hn : n < e.1.length) :
    hasChild fs (e.1.take n) = true := by
  rw [hasChild, Bool.or_eq_true]
  by_cases hcase : n + 1 = e.1.length
  · left
    rw [List.any_eq_true]
    refine ⟨e, he, ?_⟩
    rw [decide_eq_true_eq]
    have hp := parentDir_take_succ e.1 n (by omega)
    rw [hcase, List.take_length] at hp
    exact hp
  · right
    rw [List.any_eq_true]
    refine ⟨e.1.take (n + 1), hwf e he (n + 1) (by omega) (by omega), ?_⟩
    rw [decide_eq_true_eq]
    refine ⟨parentDir_take_succ e.1 n (by omega), ?_⟩
    intro hEq
    have hL := congrArg List.length hEq
    rw [List.length_take, List.length_take] at hL
    omega

theorem hasChild_of_file_under (fs : FS) (d : FPath) (e : FPath × PdfDoc)
    (he : e ∈ fs.files) (hwf : wfFS fs) (hpfx : pfx d e.1 = true) (hne : d ≠ e.1) :
    hasChild fs d = true := by
  obtain ⟨t, ht⟩ := (pfx_iff_append d e.1).1 hpfx
  have htne : t ≠ [] := by
    intro h0
    rw [h0, List.append_nil] at ht
    exact hne ht.symm
  have hlen : d.length < e.1.length := by
    rw [ht, List.length_append]
    cases t with
    | nil => exact absurd rfl htne
    | cons x xs => simp
  have hd : e.1.take d.length = d := by rw [ht, List.take_left]
  have hres := hasChild_of_take fs e he hwf d.length hlen
  rw [hd] at hres
  exact hres

theorem wfFS_rmdirRaw (fs : FS) (p : FPath) (hwf : wfFS fs)
    (hnc : hasChild fs p = false) : wfFS (rmdirRaw fs p) := by
  intro e he n hn hlt
  have he' : e ∈ fs.files := he
  apply mem_dirs_rmdirRaw fs p _ (hwf e he' n hn hlt)
  intro hEq
  have := hasChild_of_take fs e he' hwf n hlt
  rw [hEq, hnc] at this
  exact Bool.false_ne_true this

theorem remove_empty_keeps_pdfa_in (fs : FS) (p root_dir : FPath) :
    ∀ d, d ∈ fs.dirs → baseName d = "PDFA_IN" →
    d ∈ (remove_empty_directories fs p root_dir).dirs := by
  induction fs, p, root_dir using remove_empty_directories.induct with
  | case1 fs p root h1 h2 =>
    intro d hd _
    rw [remove_empty_directories, if_pos h1, if_pos h2]
    exact hd
  | case2 fs p root h1 h2 x h3 ih =>
    intro d hd hname
    rw [remove_empty_directories, if_pos h1, if_neg h2, if_pos h3]
    have hdp : d ≠ p := fun hEq => h2 (hEq ▸ hname)
    exact ih d (mem_dirs_rmdirRaw fs p d hd hdp) hname
  | case3 fs p root h1 h2 h3 =>
    intro d hd hname
    rw [remove_empty_directories, if_pos h1, if_neg h2, if_neg h3]
    have hdp : d ≠ p := fun hEq => h2 (hEq ▸ hname)
    exact mem_dirs_rmdirRaw fs p d hd hdp
  | case4 fs p root h1 =>
    intro d hd _
    rw [remove_empty_directories, if_neg h1]
    exact hd

theorem remove_empty_keeps_nonempty (fs : FS) (p root_dir : FPath) :
    ∀ d, wfFS fs → d ∈ fs.dirs →
    (∃ e ∈ fs.files, pfx d e.1 = true ∧ d ≠ e.1) →
    d ∈ (remove_empty_directories fs p root_dir).dirs := by
  induction fs, p, root_dir using remove_empty_directories.induct with
  | case1 fs p root h1 h2 =>
    intro d _ hd _
    rw [remove_empty_directories, if_pos h1, if_pos h2]
    exact hd
  | case2 fs p root h1 h2 x h3 ih =>
    intro d hwf hd hex
    rw [remove_empty_directories, if_pos h1, if_neg h2, if_pos h3]
    obtain ⟨e, he, hpfx, hne⟩ := hex
    have hdp : d ≠ p := by
      intro hEq
      have hch := hasChild_of_file_under fs d e he hwf hpfx hne
      rw [hEq, h1.2] at hch
      exact Bool.false_ne_true hch
    exact ih d (wfFS_rmdirRaw fs p hwf h1.2) (mem_dirs_rmdirRaw fs p d hd hdp)
      ⟨e, he, hpfx, hne⟩
  | case3 fs p root h1 h2 h3 =>
    intro d hwf hd hex
    rw [remove_empty_directories, if_pos h1, if_neg h2, if_neg h3]
    obtain ⟨e, he, hpfx, hne⟩ := hex
    have hdp : d ≠ p := by
      intro hEq
      have hch := hasChild_of_file_under fs d e he hwf hpfx hne
      rw [hEq, h1.2] at hch
      exact Bool.false_ne_true hch
    exact mem_dirs_rmdirRaw fs p d hd hdp
  | case4 fs p root h1 =>
    intro d _ hd _
    rw [remove_empty_directories, if_neg h1]
    exact hd

theorem fold_tryRmdir_keeps_pdfa_in (l : List FPath) (fs : FS) (d : FPath)
    (hd : d ∈ fs.dirs) (hname : strContains (baseName d) "PDFA_IN" = true) :
    d ∈ (l.foldl
      (fun acc q => if strContains (baseName q) "PDFA_IN" then acc else tryRmdir acc q)
      fs).dirs := by
  induction l generalizing fs with
  | nil => exact hd
  | cons q t ih =>
    rw [List.foldl_cons]
    apply ih
    by_cases hq : strContains (baseName q) "PDFA_IN" = true
    · rw [if_pos hq]; exact hd
    · rw [if_neg hq]
      exact mem_dirs_tryRmdir fs q d hd (fun hEq => hq (hEq ▸ hname))

theorem fold_tryRmdir_keeps_with_child (l : List FPath) (fs : FS) (d : FPath)
    (hd : d ∈ fs.dirs)
    (hchild : ∃ e ∈ fs.files, parentDir e.1 = d) :
    d ∈ (l.foldl
      (fun acc q => if strContains (baseName q) "PDFA_IN" then acc else tryRmdir acc q)
      fs).dirs := by
  induction l generalizing fs with
  | nil => exact hd
  | cons q t ih =>
    rw [List.foldl_cons]
    apply ih
    · by_cases hq : strContains (baseName q) "PDFA_IN" = true
      · rw [if_pos hq]; exact hd
      · rw [if_neg hq]
        by_cases hdq : d = q
        · subst hdq
          rw [tryRmdir]
          split
          · rename_i hcond
            exfalso
            obtain ⟨e, he, hpe⟩ := hchild
            have hch : hasChild fs d = true := by
              rw [hasChild, Bool.or_eq_true]
              left
              rw [List.any_eq_true]
              exact ⟨e, he, decide_eq_true hpe⟩
            rw [hcond.2] at hch
            exact Bool.false_ne_true hch
          · exact hd
        · exact mem_dirs_tryRmdir fs q d hd hdq
    · obtain ⟨e, he, hpe⟩ := hchild
      refine ⟨e, ?_, hpe⟩
      by_cases hq : strContains (baseName q) "PDFA_IN" = true
      · rw [if_pos hq]; exact he
      · rw [if_neg hq, files_tryRmdir]
        exact he

/-- C8: the empty-directory cleanup never deletes a non-empty directory and
never deletes a `PDFA_IN` directory: `remove_empty_directories` keeps every
directory named `PDFA_IN`, never touches files, and (on a well-formed
filesystem) keeps every directory that still has a file somewhere below it;
`clear_input_directory`'s directory-removal pass skips every directory
whose name contains `PDFA_IN` and keeps every directory that retains a file
child outside the cleared tree. -/
theorem C8_cleanup_never_removes_nonempty_or_pdfa_in :
    (∀ (fs : FS) (p root_dir d : FPath), d ∈ fs.dirs → baseName d = "PDFA_IN" →
      d ∈ (remove_empty_directories fs p root_dir).dirs) ∧
    (∀ (fs : FS) (p root_dir : FPath),
      (remove_empty_directories fs p root_dir).files = fs.files) ∧
    (∀ (fs : FS) (p root_dir d : FPath), wfFS fs → d ∈ fs.dirs →
      (∃ e ∈ fs.files, pfx d e.1 = true ∧ d ≠ e.1) →
      d ∈ (remove_empty_directories fs p root_dir).dirs) ∧
    (∀ (fs : FS) (directory d : FPath), d ∈ fs.dirs →
      strContains (baseName d) "PDFA_IN" = true →
      d ∈ (clear_input_directory fs directory).dirs) ∧
    (∀ (fs : FS) (directory d : FPath), d ∈ fs.dirs →
      (∃ e ∈ fs.files, pfx directory e.1 = false ∧ parentDir e.1 = d) →
      d ∈ (clear_input_directory fs directory).dirs) := by
  refine ⟨?_, ?_, ?_, ?_, ?_⟩
  · intro fs p root_dir d hd hname
    exact remove_empty_keeps_pdfa_in fs p root_dir d hd hname
  · intro fs p root_dir
    exact files_remove_empty_directories fs p root_dir
  · intro fs p root_dir d hwf hd hex
    exact remove_empty_keeps_nonempty fs p root_dir d hwf hd hex
  · intro fs directory d hd hname
    exact fold_tryRmdir_keeps_pdfa_in _ _ d hd hname
  · intro fs directory d hd hex
    obtain ⟨e, he, hout, hpe⟩ := hex
    simp only [clear_input_directory]
    apply fold_tryRmdir_keeps_with_child
    · exact hd
    · refine ⟨e, ?_, hpe⟩
      apply List.mem_filter.2
      refine ⟨he, ?_⟩
      simp [hout]

/-- Witness for C8: a concrete empty `PDFA_IN` directory survives
`remove_empty_directories`. -/
theorem C8_cleanup_never_removes_nonempty_or_pdfa_in_witness :
    ["IN", "PDFA_IN"] ∈ (remove_empty_directories
      (FS.mk [] [["IN"], ["IN", "PDFA_IN"]]) ["IN", "PDFA_IN"] ["IN"]).dirs :=
  C8_cleanup_never_removes_nonempty_or_pdfa_in.1
    (FS.mk [] [["IN"], ["IN", "PDFA_IN"]]) ["IN", "PDFA_IN"] ["IN"] ["IN", "PDFA_IN"]
    (by decide) (by decide)
